import Mathlib

/-!
Verification development for the guessTheRank server (src/server.js).

The JavaScript source is shallowly embedded below:
* JS objects used as string-keyed maps become association lists
  (`List (String × α)`) with insertion-order semantics;
* JS `Set` objects of question strings become `List String` with
  membership-based insertion (`addUsed`);
* `null`/`undefined` valued fields become `Option`;
* nondeterminism (random shuffles, the random reveal target, responses of
  the generative HTTP service) becomes explicit parameters;
* the similarity scorer (the string-similarity package, Dice coefficient
  over character bigrams) is embedded exactly, with the float threshold
  comparison `score > 0.7` carried out in exact integer arithmetic
  (`20 * intersection > 7 * (lenA + lenB - 2)`), which agrees with the
  IEEE double computation for all string lengths arising here.
-/

/-! ## JS object / set helpers -/

/-- Read of `m[k]` on a JS object viewed as an association list. -/
def objGet {α : Type} (m : List (String × α)) (k : String) : Option α :=
  match m with
  | [] => none
  | e :: rest => if e.1 = k then some e.2 else objGet rest k

/-- Write `m[k] = v` on a JS object: replaces the entry if the key is
present, otherwise appends it (JS insertion-order key semantics). -/
def objSet {α : Type} (m : List (String × α)) (k : String) (v : α) :
    List (String × α) :=
  if m.any (fun e => e.1 = k) then
    m.map (fun e => if e.1 = k then (k, v) else e)
  else
    m ++ [(k, v)]

/-- `delete m[k]` on a JS object. -/
def objDelete {α : Type} (m : List (String × α)) (k : String) :
    List (String × α) :=
  m.filter (fun e => !decide (e.1 = k))

/-- `Object.keys(m)`. -/
def objKeys {α : Type} (m : List (String × α)) : List String :=
  m.map (fun e => e.1)

/-- `game.points[p] || 0`: missing point entries read as 0. -/
def getPts (m : List (String × Int)) (p : String) : Int :=
  (objGet m p).getD 0

/-- `set.add q` on a JS `Set` modelled as a list: a no-op when the element
is already present. -/
def addUsed (s : List String) (q : String) : List String :=
  if q ∈ s then s else q :: s

/-- Add every element of `l` to the set `s`. -/
def addAll (s : List String) (l : List String) : List String :=
  l.foldl addUsed s

/-- JavaScript `Array.prototype.indexOf`: index of the first occurrence,
or -1 when absent. -/
def jsIndexOf (l : List String) (x : String) : Int :=
  match l with
  | [] => -1
  | a :: rest =>
    if a = x then 0
    else
      let r := jsIndexOf rest x
      if r = -1 then -1 else r + 1

/-! ## Similarity scorer (string-similarity, compareTwoStrings) -/

/-- Characters matched by the JS regex class backslash-s, used by
compareTwoStrings to strip whitespace. -/
def isJsWhitespace (c : Char) : Bool :=
  c == ' ' || c == '\t' || c == '\n' || c.val == 11 || c.val == 12 ||
  c == '\r' || c.val == 0xa0 || c.val == 0x1680 ||
  (0x2000 ≤ c.val && c.val ≤ 0x200a) || c.val == 0x2028 ||
  c.val == 0x2029 || c.val == 0x202f || c.val == 0x205f ||
  c.val == 0x3000 || c.val == 0xfeff

/-- `s.replace(/\s+/g, '')`. -/
def despace (s : String) : List Char :=
  s.data.filter (fun c => !isJsWhitespace c)

/-- The list of character bigrams of a string (as a character list). -/
def bigrams (l : List Char) : List (Char × Char) :=
  l.zip l.tail

/-- Size of the multiset intersection of two bigram lists, computed the
way compareTwoStrings does (a count map of the first operand decremented
while walking the second operand). -/
def interCount : List (Char × Char) → List (Char × Char) → Nat
  | _, [] => 0
  | avail, g :: rest =>
    if g ∈ avail then interCount (avail.erase g) rest + 1
    else interCount avail rest

/-- Decides `compareTwoStrings a b > 0.7`, the acceptance threshold used
by the question generator. The Dice score is
`2 * I / (lenA + lenB - 2)` after whitespace removal; identical stripped
strings score 1, strings shorter than two characters score 0. The float
comparison against the literal 0.7 is decided exactly by
`20 * I > 7 * (lenA + lenB - 2)`. -/
def simGT7 (a b : String) : Bool :=
  let a' := despace a
  let b' := despace b
  if a' = b' then true
  else if a'.length < 2 || b'.length < 2 then false
  else 20 * interCount (bigrams a') (bigrams b') >
    7 * (a'.length + b'.length - 2)

/-! ## Question Supply (selectQuestions / selectFromQuestionPool)

State threaded through a supply call: the room-local used set
(`game.usedQuestions`), the process-wide ledger (`globalUsedQuestions`)
and the prefetch queue (`questionCache`).
-/

/-- The fixed fallback list of src/server.js. -/
def fallbackQuestions : List String :=
  [ "Who is the most likely to become a famous inventor?",
    "Who is the most likely to forget their own birthday?",
    "Who is the most likely to win a marathon?",
    "Who is the most likely to trip over their own shoelaces?",
    "Who is the most likely to start a successful company?",
    "Who is the most likely to lose their keys in their own house?" ]

/-- Result of one question-acquisition call. `noMoreEmitted` records
whether the call broadcast a gameState payload carrying
`noMoreQuestions: true` to the room. -/
structure SupplyOut where
  selected : List String
  roomUsed : List String
  globalUsed : List String
  cache : List String
  noMoreEmitted : Bool
  deriving Repr, DecidableEq

/-- The cache-draining while loop at the top of selectQuestions: shift
entries while fewer than `n` are accepted; accept an entry only when it
is in neither used set, adding accepted entries to both sets. Returns
(accepted, remaining cache, roomUsed, globalUsed). -/
def drainCache : List String → List String → List String → List String →
    Nat → List String × List String × List String × List String
  | [], ru, gu, acc, _ => (acc, [], ru, gu)
  | q :: rest, ru, gu, acc, n =>
    if acc.length < n then
      if q ∉ ru ∧ q ∉ gu then
        drainCache rest (addUsed ru q) (addUsed gu q) (acc ++ [q]) n
      else
        drainCache rest ru gu acc n
    else (acc, q :: rest, ru, gu)

/-- The per-candidate validation loop of selectQuestions: drop candidates
already in either used set, drop candidates whose similarity score
against some current ledger member exceeds 0.7, and add each accepted
candidate to both sets before examining the next one. Returns
(validQuestions, roomUsed, globalUsed). -/
def validateCandidates : List String → List String → List String →
    List String × List String × List String
  | [], ru, gu => ([], ru, gu)
  | q :: rest, ru, gu =>
    if q ∈ ru ∨ q ∈ gu then validateCandidates rest ru gu
    else if gu.any (fun e => simGT7 q e) then validateCandidates rest ru gu
    else
      let r := validateCandidates rest (addUsed ru q) (addUsed gu q)
      (q :: r.1, r.2.1, r.2.2)

/-- selectFromQuestionPool: filter the seed pool against both used sets;
when it cannot cover the demand, also filter the fallback list and use
the concatenation; when even that is short, return the empty list and
broadcast a payload with `noMoreQuestions: true` (mutating nothing).
`shuffle` stands for the `sort(() => Math.random() - 0.5)` call. -/
def selectFromQuestionPoolS (pool fallbacks : List String)
    (shuffle : List String → List String) (ru gu cache : List String)
    (n : Nat) : SupplyOut :=
  let avail := pool.filter (fun q => !ru.contains q && !gu.contains q)
  if avail.length < n then
    let fb := fallbacks.filter (fun q => !ru.contains q && !gu.contains q)
    let combined := avail ++ fb
    if combined.length < n then ⟨[], ru, gu, cache, true⟩
    else
      let sel := (shuffle combined).take n
      ⟨sel, addAll ru sel, addAll gu sel, cache, false⟩
  else
    let sel := (shuffle avail).take n
    ⟨sel, addAll ru sel, addAll gu sel, cache, false⟩

/-- The retry loop of selectQuestions. Each element of `attempts` is the
outcome of one Groq API round trip: `none` when the call failed, returned
an empty or malformed body, or failed the format checks (those paths
mutate nothing), `some cands` when a candidate list was parsed. Accepted
surplus beyond `needed` is appended to the prefetch queue; when the
combined cached plus fresh questions cover the demand the call returns,
otherwise it retries, and after the last attempt it falls back to the
pool. -/
def apiAttemptLoop (pool fallbacks : List String)
    (shuffle : List String → List String) (cached : List String)
    (needed n : Nat) :
    List (Option (List String)) → List String → List String →
    List String → SupplyOut
  | [], ru, gu, cache => selectFromQuestionPoolS pool fallbacks shuffle ru gu cache n
  | none :: rest, ru, gu, cache =>
    apiAttemptLoop pool fallbacks shuffle cached needed n rest ru gu cache
  | some cands :: rest, ru, gu, cache =>
    let v := validateCandidates cands ru gu
    let cache' := cache ++ v.1.drop needed
    let all := cached ++ v.1.take needed
    if n ≤ all.length then ⟨all.take n, v.2.1, v.2.2, cache', false⟩
    else apiAttemptLoop pool fallbacks shuffle cached needed n rest v.2.1 v.2.2 cache'

/-- selectQuestions: with no API key configured, go straight to the pool;
otherwise drain the prefetch cache first and, if it does not cover the
demand, enter the API retry loop. -/
def selectQuestionsS (hasKey : Bool) (pool fallbacks : List String)
    (attempts : List (Option (List String)))
    (shuffle : List String → List String) (ru gu cache : List String)
    (n : Nat) : SupplyOut :=
  if !hasKey then selectFromQuestionPoolS pool fallbacks shuffle ru gu cache n
  else
    let d := drainCache cache ru gu [] n
    if n ≤ d.1.length then ⟨d.1.take n, d.2.2.1, d.2.2.2, d.2.1, false⟩
    else
      apiAttemptLoop pool fallbacks shuffle d.1 (n - d.1.length) n
        attempts d.2.2.1 d.2.2.2 d.2.1

/-- One acquisition call of a whole-process trace: its environment
(API key presence, API outcomes, shuffles), the requesting room's own
used set, and the demanded count. -/
structure Call where
  hasKey : Bool
  attempts : List (Option (List String))
  shuffle : List String → List String
  roomUsed : List String
  n : Nat

/-- Run a sequence of acquisition calls against the shared ledger and
prefetch queue, collecting each call's returned questions. -/
def runCalls (pool fallbacks : List String) :
    List Call → List String → List String →
    List (List String) × List String × List String
  | [], gu, cache => ([], gu, cache)
  | c :: rest, gu, cache =>
    let out := selectQuestionsS c.hasKey pool fallbacks c.attempts c.shuffle
      c.roomUsed gu cache c.n
    let r := runCalls pool fallbacks rest out.globalUsed out.cache
    (out.selected :: r.1, r.2.1, r.2.2)

/-! ## Room state and socket handlers -/

/-- One room of the `games` registry (the object literal built by the
createGame handler). `null` fields are `Option`; the `state` field takes
the string values the source assigns: "waiting", "ranking", "guessing",
"reveal" and (in the disconnect handler) "joining". -/
structure Game where
  players : List String
  points : List (String × Int)
  state : String
  owner : String
  usedQuestions : List String
  questionAssignments : List (String × String)
  rankings : List (String × List String)
  currentRanker : Option String
  currentTarget : Option String
  currentQuestion : Option String
  currentGuesses : List (String × Int)
  actualPosition : Option Int
  currentFullRanking : Option (List String)
  rankers : List String
  currentRevealIndex : Nat
  noMoreQuestions : Bool
  deriving Repr, DecidableEq

/-- `players.sort((a, b) => (points[b] || 0) - (points[a] || 0))`:
stable sort descending by points (V8 Array.prototype.sort is stable). -/
def sortByPointsDesc (players : List String) (pts : List (String × Int)) :
    List String :=
  players.mergeSort (fun a b => decide (getPts pts b ≤ getPts pts a))

/-- The createGame handler's fresh room for owner `playerName`. -/
def createGameM (playerName : String) : Game :=
  { players := [playerName]
    points := [(playerName, 0)]
    state := "waiting"
    owner := playerName
    usedQuestions := []
    questionAssignments := []
    rankings := []
    currentRanker := none
    currentTarget := none
    currentQuestion := none
    currentGuesses := []
    actualPosition := none
    currentFullRanking := none
    rankers := []
    currentRevealIndex := 0
    noMoreQuestions := false }

/-- The joinGame handler. `g?` is the registry lookup `games[gameId]`
(`none` for an unknown room). Returns the room afterwards together with
the error message sent to the joining connection, if any. -/
def joinGameM (g? : Option Game) (playerName : String) :
    Option Game × Option String :=
  match g? with
  | none => (none, some "Game not found")
  | some g =>
    if playerName ∈ g.players then (some g, some "Name already taken")
    else
      (some { g with
          players := g.players ++ [playerName]
          points := objSet g.points playerName 0
          state := "waiting" }, none)

/-- Result of the embedded setNextReveal call: the room afterwards, and
whether startNewRound was invoked instead (revealIndex past the end). -/
def setNextRevealM (g : Game) (targetIdx : Nat) : Game × Bool :=
  if g.players.length ≤ g.currentRevealIndex then (g, true)
  else
    let ranker := g.rankers.getD g.currentRevealIndex ""
    let target := g.players.getD targetIdx ""
    ({ g with
        currentRanker := some ranker
        currentTarget := some target
        currentQuestion := objGet g.questionAssignments ranker
        currentGuesses := []
        actualPosition :=
          some (jsIndexOf ((objGet g.rankings ranker).getD []) target + 1)
        currentFullRanking := none
        state := "guessing" }, false)

/-- Result of a submitRanking call: room afterwards, error message to the
submitting connection, the rankingSubmitted acknowledgment, and whether a
new round was requested by the embedded setNextReveal. -/
structure RankOut where
  game : Game
  err : Option String
  ack : Bool
  newRound : Bool
  deriving Repr, DecidableEq

/-- The submitRanking handler. `targetIdx` resolves the random target
draw of the embedded setNextReveal call (the source draws
`Math.floor(Math.random() * players.length)`). -/
def submitRankingM (g : Game) (caller : String) (ranking : List String)
    (targetIdx : Nat) : RankOut :=
  if caller ∉ g.players then ⟨g, none, false, false⟩
  else if g.state ≠ "ranking" then ⟨g, none, false, false⟩
  else if ranking.length ≠ g.players.length ∨
      ¬ (∀ p ∈ ranking, p ∈ g.players) then
    ⟨g, some "Invalid ranking", false, false⟩
  else
    let g1 := { g with rankings := objSet g.rankings caller ranking }
    if (objKeys g1.rankings).length = g1.players.length then
      let r := setNextRevealM g1 targetIdx
      ⟨r.1, none, true, r.2⟩
    else ⟨g1, none, true, false⟩

/-- The scoring loop of the guessing-to-reveal transition: walk the
guesses, awarding each matching guesser one point and counting the
matches. Returns (points, correctGuessCount). -/
def awardLoop : List (String × Int) → Option Int → List (String × Int) →
    List (String × Int) × Nat
  | [], _, pts => (pts, 0)
  | (gsr, v) :: rest, a, pts =>
    if some v = a then
      let r := awardLoop rest a (objSet pts gsr (getPts pts gsr + 1))
      (r.1, r.2 + 1)
    else awardLoop rest a pts

/-- The complete point mutation of one reveal: guesser awards followed by
the ranker award of `min(correctGuessCount, 3)`. -/
def scoreGuesses (gs : List (String × Int)) (a : Option Int) (r : String)
    (pts : List (String × Int)) : List (String × Int) :=
  let w := awardLoop gs a pts
  objSet w.1 r (getPts w.1 r + (min w.2 3 : Nat))

/-- The submitGuess handler: silently ignore unknown players and calls
outside the guessing phase; reject the ranker and out-of-range guesses
with an error and no mutation; record the guess; when every non-ranker
player has guessed, score the reveal, re-sort the leaderboard, publish
the full ranking and enter the reveal phase. -/
def submitGuessM (g : Game) (caller : String) (guess : Int) :
    Game × Option String :=
  if caller ∉ g.players then (g, none)
  else if g.state ≠ "guessing" then (g, none)
  else if g.currentRanker = some caller then
    (g, some "You cannot guess as the ranker")
  else if guess < 1 ∨ guess > g.players.length then
    (g, some "Invalid guess")
  else
    let guesses' := objSet g.currentGuesses caller guess
    let nonRanker := g.players.filter (fun p => some p ≠ g.currentRanker)
    if (objKeys guesses').length = nonRanker.length then
      let rankerName := g.currentRanker.getD ""
      let pts' := scoreGuesses guesses' g.actualPosition rankerName g.points
      ({ g with
          currentGuesses := guesses'
          points := pts'
          players := sortByPointsDesc g.players pts'
          currentFullRanking := objGet g.rankings rankerName
          state := "reveal" }, none)
    else ({ g with currentGuesses := guesses' }, none)

/-- The nextReveal handler (owner-only advance past a reveal). -/
def nextRevealM (g : Game) (caller : String) (targetIdx : Nat) :
    Game × Option String × Bool :=
  if caller ≠ g.owner then (g, some "Only the game owner can advance", false)
  else if g.state ≠ "reveal" then (g, none, false)
  else
    let r := setNextRevealM { g with currentRevealIndex := g.currentRevealIndex + 1 } targetIdx
    (r.1, none, r.2)

/-- The disconnect handler for one room containing the departing player:
splice the player out of `players`, delete the `points`,
`questionAssignments` and `rankings` entries, delete the room when it
became empty (`none`), otherwise demote the state ("waiting" with more
than one player left, "joining" with exactly one) and re-sort the
leaderboard. -/
def disconnectM (g : Game) (name : String) : Option Game :=
  if name ∉ g.players then some g
  else
    let players1 := g.players.erase name
    let points1 := objDelete g.points name
    if players1.length = 0 then none
    else some { g with
        players := sortByPointsDesc players1 points1
        points := points1
        questionAssignments := objDelete g.questionAssignments name
        rankings := objDelete g.rankings name
        state := if 1 < players1.length then "waiting" else "joining" }

/-! ## Question assignment and startGame -/

/-- Result of assignQuestions / startGame: the room, the supply state,
success, the error message to the calling connection and the gameState
payloads broadcast to the whole room (only the noMoreQuestions payload is
modelled; the per-player payloads of the success path carry no extra
room-state information). -/
structure AssignOut where
  game : Game
  globalUsed : List String
  cache : List String
  ok : Bool
  broadcasts : List Game
  deriving Repr, DecidableEq

/-- assignQuestions: ask the supply for one question per player; on
shortfall report failure; on success shuffle the questions, assign one
per player, reset `rankings`, draw the round's `rankers` permutation and
reset the reveal cursor. `shuffleQ` and `shuffleR` stand for the two
`sort(() => Math.random() - 0.5)` shuffles. -/
def assignQuestionsM (hasKey : Bool) (pool fallbacks : List String)
    (attempts : List (Option (List String)))
    (shuffle shuffleQ shuffleR : List String → List String) (g : Game)
    (gu cache : List String) : AssignOut :=
  let out := selectQuestionsS hasKey pool fallbacks attempts shuffle
    g.usedQuestions gu cache g.players.length
  let g1 := { g with usedQuestions := out.roomUsed }
  let emits := if out.noMoreEmitted then [{ g1 with noMoreQuestions := true }] else []
  if out.selected.length < g.players.length then
    ⟨g1, out.globalUsed, out.cache, false, emits⟩
  else
    let qs := shuffleQ out.selected
    ⟨{ g1 with
        questionAssignments := g1.players.zip qs
        rankings := []
        rankers := shuffleR g1.players
        currentRevealIndex := 0 }, out.globalUsed, out.cache, true, emits⟩

/-- Result of a startGame call: room, supply state, success flag, error
message sent back to the calling connection, and room-wide broadcasts. -/
structure StartOut where
  game : Game
  globalUsed : List String
  cache : List String
  ok : Bool
  err : Option String
  broadcasts : List Game
  deriving Repr, DecidableEq

/-- The startGame handler: owner-only; on assignment failure the caller
gets an error and the phase is left as it was; on success the room enters
the ranking phase. -/
def startGameM (hasKey : Bool) (pool fallbacks : List String)
    (attempts : List (Option (List String)))
    (shuffle shuffleQ shuffleR : List String → List String) (g : Game)
    (caller : String) (gu cache : List String) : StartOut :=
  if caller ≠ g.owner then
    ⟨g, gu, cache, false, some "Only the game owner can start the game", []⟩
  else
    let a := assignQuestionsM hasKey pool fallbacks attempts shuffle shuffleQ
      shuffleR g gu cache
    if a.ok then
      ⟨{ a.game with state := "ranking" }, a.globalUsed, a.cache, true, none,
        a.broadcasts⟩
    else
      ⟨a.game, a.globalUsed, a.cache, false,
        some "No more unique questions available.", a.broadcasts⟩

/-! ## Concrete room fixtures used by witnesses and counterexamples -/

/-- A three-player room sitting in the ranking phase. -/
def gRank3 : Game :=
  { players := ["A", "B", "C"]
    points := [("A", 0), ("B", 0), ("C", 0)]
    state := "ranking"
    owner := "A"
    usedQuestions := ["q1", "q2", "q3"]
    questionAssignments := [("A", "q1"), ("B", "q2"), ("C", "q3")]
    rankings := []
    currentRanker := none
    currentTarget := none
    currentQuestion := none
    currentGuesses := []
    actualPosition := none
    currentFullRanking := none
    rankers := ["A", "B", "C"]
    currentRevealIndex := 0
    noMoreQuestions := false }

/-- A two-player room sitting in the reveal phase. -/
def gReveal2 : Game :=
  { players := ["A", "B"]
    points := [("A", 3), ("B", 1)]
    state := "reveal"
    owner := "A"
    usedQuestions := ["q1", "q2"]
    questionAssignments := [("A", "q1"), ("B", "q2")]
    rankings := [("A", ["A", "B"]), ("B", ["B", "A"])]
    currentRanker := some "A"
    currentTarget := some "B"
    currentQuestion := some "q1"
    currentGuesses := [("B", 2)]
    actualPosition := some 2
    currentFullRanking := some ["A", "B"]
    rankers := ["A", "B"]
    currentRevealIndex := 0
    noMoreQuestions := false }

/-- A six-player room in the guessing phase, one guess short of the
reveal; the ranker is "R" and every submitted guess matches
actualPosition = 2. -/
def gGuess6 : Game :=
  { players := ["R", "B", "C", "D", "E", "F"]
    points := [("R", 0), ("B", 0), ("C", 0), ("D", 0), ("E", 0), ("F", 0)]
    state := "guessing"
    owner := "R"
    usedQuestions := ["q1", "q2", "q3", "q4", "q5", "q6"]
    questionAssignments :=
      [("R", "q1"), ("B", "q2"), ("C", "q3"), ("D", "q4"), ("E", "q5"), ("F", "q6")]
    rankings :=
      [("R", ["B", "C", "R", "D", "E", "F"]), ("B", ["R", "B", "C", "D", "E", "F"]),
       ("C", ["R", "B", "C", "D", "E", "F"]), ("D", ["R", "B", "C", "D", "E", "F"]),
       ("E", ["R", "B", "C", "D", "E", "F"]), ("F", ["R", "B", "C", "D", "E", "F"])]
    currentRanker := some "R"
    currentTarget := some "C"
    currentQuestion := some "q1"
    currentGuesses := [("B", 2), ("C", 2), ("D", 2), ("E", 2)]
    actualPosition := some 2
    currentFullRanking := none
    rankers := ["R", "B", "C", "D", "E", "F"]
    currentRevealIndex := 0
    noMoreQuestions := false }

/-- A three-player waiting room that has already used every fallback
question. -/
def gWait3 : Game :=
  { gRank3 with state := "waiting", usedQuestions := fallbackQuestions }

/-! ## Association-list and set lemmas -/

theorem map_id_of_eq {α : Type} (l : List α) (f : α → α)
    (h : ∀ x ∈ l, f x = x) : l.map f = l := by
  induction l with
  | nil => rfl
  | cons a rest ih =>
    simp only [List.map_cons, h a (List.mem_cons_self a rest)]
    rw [ih (fun x hx => h x (List.mem_cons_of_mem a hx))]

theorem any_key_iff_mem {α : Type} (m : List (String × α)) (k : String) :
    m.any (fun e => decide (e.1 = k)) = true ↔ k ∈ objKeys m := by
  simp only [List.any_eq_true, decide_eq_true_eq, objKeys, List.mem_map]

theorem objGet_append_left {α : Type} (m l : List (String × α))
    (k : String) (h : objGet l k = none) :
    objGet (m ++ l) k = objGet m k := by
  induction m with
  | nil => simpa [objGet] using h
  | cons e rest ih =>
    by_cases he : e.1 = k
    · simp [objGet, he]
    · simp [objGet, he, ih]

theorem objGet_append_right {α : Type} (m l : List (String × α))
    (k : String) (h : k ∉ objKeys m) :
    objGet (m ++ l) k = objGet l k := by
  induction m with
  | nil => simp
  | cons e rest ih =>
    simp only [objKeys, List.map_cons, List.mem_cons] at h
    push_neg at h
    simp only [List.cons_append, objGet, Ne.symm h.1, ite_false]
    exact ih (by simpa [objKeys] using h.2)

theorem objGet_none_of_not_mem {α : Type} (m : List (String × α))
    (k : String) (h : k ∉ objKeys m) : objGet m k = none := by
  induction m with
  | nil => rfl
  | cons e rest ih =>
    simp only [objKeys, List.map_cons, List.mem_cons] at h
    push_neg at h
    simp only [objGet, Ne.symm h.1, ite_false]
    exact ih (by simpa [objKeys] using h.2)

theorem objGet_mapset {α : Type} (m : List (String × α)) (k k' : String)
    (v : α) :
    objGet (m.map (fun e => if e.1 = k then (k, v) else e)) k' =
      if k' = k then
        (if m.any (fun e => decide (e.1 = k)) = true then some v else none)
      else objGet m k' := by
  induction m with
  | nil =>
    by_cases hk : k' = k <;> simp [objGet, hk]
  | cons e rest ih =>
    by_cases he : e.1 = k
    · by_cases hk : k' = k
      · subst hk
        simp [objGet, he, List.any_cons]
      · have h1 : ¬ k = k' := fun hx => hk hx.symm
        have h2 : ¬ e.1 = k' := by rw [he]; exact h1
        simp only [List.map_cons, he, ite_true, objGet, h1, ite_false,
          if_neg hk] at ih ⊢
        exact ih
    · by_cases hke : e.1 = k'
      · have hk : ¬ k' = k := fun hx => he (by rw [hke, hx])
        simp [objGet, he, hke, hk]
      · simp only [List.map_cons, he, ite_false, objGet, hke,
          List.any_cons, decide_eq_true_eq]
        rw [ih]
        by_cases hk : k' = k
        · rw [if_pos hk, if_pos hk]
          cases hr : rest.any (fun e => decide (e.1 = k)) with
          | true => simp [hr]
          | false => simp [hr]
        · simp [hk]

theorem objGet_objSet {α : Type} (m : List (String × α)) (k k' : String)
    (v : α) :
    objGet (objSet m k v) k' = if k' = k then some v else objGet m k' := by
  unfold objSet
  by_cases hany : m.any (fun e => decide (e.1 = k)) = true
  · rw [if_pos hany, objGet_mapset, if_pos hany]
  · rw [if_neg hany]
    have hnk : k ∉ objKeys m := fun h => hany ((any_key_iff_mem m k).mpr h)
    by_cases hk : k' = k
    · subst hk
      rw [objGet_append_right m _ k' hnk]
      simp [objGet]
    · rw [objGet_append_left, if_neg hk]
      simp [objGet, Ne.symm hk]

theorem objGet_objSet_self {α : Type} (m : List (String × α)) (k : String)
    (v : α) : objGet (objSet m k v) k = some v := by
  simp [objGet_objSet]

theorem objGet_objSet_ne {α : Type} (m : List (String × α)) (k k' : String)
    (v : α) (h : k' ≠ k) : objGet (objSet m k v) k' = objGet m k' := by
  simp [objGet_objSet, h]

theorem getPts_objSet (m : List (String × Int)) (k p : String) (v : Int) :
    getPts (objSet m k v) p = if p = k then v else getPts m p := by
  by_cases h : p = k
  · simp [getPts, h, objGet_objSet]
  · simp [getPts, objGet_objSet, h]

theorem objKeys_objSet {α : Type} (m : List (String × α)) (k : String)
    (v : α) :
    objKeys (objSet m k v) =
      if m.any (fun e => decide (e.1 = k)) = true then objKeys m
      else objKeys m ++ [k] := by
  unfold objSet
  by_cases hany : m.any (fun e => decide (e.1 = k)) = true
  · rw [if_pos hany, if_pos hany]
    unfold objKeys
    induction m with
    | nil => simp
    | cons e rest ih =>
      by_cases he : e.1 = k
      · simp only [List.map_cons, he, ite_true]
        by_cases hr : rest.any (fun e => decide (e.1 = k)) = true
        · have := ih hr
          simp only [List.map_map] at this ⊢
          simp [this, he]
        · have heq : rest.map (fun e => if e.1 = k then (k, v) else e) = rest := by
            apply map_id_of_eq
            intro x hx
            have hxk : ¬ x.1 = k := by
              intro hxx
              exact hr (List.any_eq_true.mpr ⟨x, hx, by simpa using hxx⟩)
            simp [hxk]
          simp [heq, he]
      · have hr : rest.any (fun e => decide (e.1 = k)) = true := by
          simpa [List.any_cons, he] using hany
        simp only [List.map_cons, he, ite_false]
        simpa using ih hr
  · rw [if_neg hany, if_neg hany]
    simp [objKeys]

theorem mem_objKeys_objSet {α : Type} (m : List (String × α))
    (k a : String) (v : α) :
    a ∈ objKeys (objSet m k v) ↔ a = k ∨ a ∈ objKeys m := by
  rw [objKeys_objSet]
  by_cases hany : m.any (fun e => decide (e.1 = k)) = true
  · have hk : k ∈ objKeys m := (any_key_iff_mem m k).mp hany
    rw [if_pos hany]
    constructor
    · exact Or.inr
    · rintro (rfl | h)
      · exact hk
      · exact h
  · rw [if_neg hany]
    simp only [List.mem_append, List.mem_singleton]
    tauto

theorem nodup_objKeys_objSet {α : Type} (m : List (String × α))
    (k : String) (v : α) (h : (objKeys m).Nodup) :
    (objKeys (objSet m k v)).Nodup := by
  rw [objKeys_objSet]
  by_cases hany : m.any (fun e => decide (e.1 = k)) = true
  · rwa [if_pos hany]
  · rw [if_neg hany]
    rw [List.nodup_append]
    refine ⟨h, List.nodup_singleton k, ?_⟩
    intro a ha hb
    simp only [List.mem_singleton] at hb
    subst hb
    exact hany ((any_key_iff_mem m a).mpr ha)

theorem length_objSet {α : Type} (m : List (String × α)) (k : String)
    (v : α) :
    (objSet m k v).length =
      if k ∈ objKeys m then m.length else m.length + 1 := by
  unfold objSet
  by_cases hany : m.any (fun e => decide (e.1 = k)) = true
  · rw [if_pos hany, if_pos ((any_key_iff_mem m k).mp hany)]
    simp
  · have : k ∉ objKeys m := fun h => hany ((any_key_iff_mem m k).mpr h)
    rw [if_neg hany, if_neg this]
    simp

theorem objGet_objDelete_ne {α : Type} (m : List (String × α))
    (k k' : String) (h : k' ≠ k) :
    objGet (objDelete m k) k' = objGet m k' := by
  unfold objDelete
  induction m with
  | nil => rfl
  | cons e rest ih =>
    rw [List.filter_cons]
    by_cases he : e.1 = k
    · rw [if_neg (by simp [he])]
      rw [ih]
      have h2 : ¬ e.1 = k' := by rw [he]; exact Ne.symm h
      show objGet rest k' = if e.1 = k' then some e.2 else objGet rest k'
      rw [if_neg h2]
    · rw [if_pos (by simp [he])]
      show (if e.1 = k' then some e.2 else objGet (objDelete rest k) k') = _
      by_cases hke : e.1 = k'
      · rw [if_pos hke]
        show _ = if e.1 = k' then some e.2 else objGet rest k'
        rw [if_pos hke]
      · rw [if_neg hke]
        show _ = if e.1 = k' then some e.2 else objGet rest k'
        rw [if_neg hke]
        exact ih

theorem objGet_objDelete_self {α : Type} (m : List (String × α))
    (k : String) : objGet (objDelete m k) k = none := by
  unfold objDelete
  induction m with
  | nil => rfl
  | cons e rest ih =>
    by_cases he : e.1 = k
    · simpa [List.filter_cons, he] using ih
    · simpa [List.filter_cons, he, objGet] using ih

theorem mem_addUsed (s : List String) (q a : String) :
    a ∈ addUsed s q ↔ a = q ∨ a ∈ s := by
  unfold addUsed
  by_cases h : q ∈ s
  · simp only [if_pos h]
    constructor
    · exact Or.inr
    · rintro (rfl | ha)
      · exact h
      · exact ha
  · simp [if_neg h]

theorem mem_addAll (s l : List String) (a : String) :
    a ∈ addAll s l ↔ a ∈ s ∨ a ∈ l := by
  unfold addAll
  induction l generalizing s with
  | nil => simp
  | cons q rest ih =>
    simp only [List.foldl_cons]
    refine Iff.trans (ih (addUsed s q)) ?_
    rw [mem_addUsed, List.mem_cons]
    tauto

theorem length_objKeys {α : Type} (m : List (String × α)) :
    (objKeys m).length = m.length := by
  simp [objKeys]

/-! ## Question Supply lemmas -/

theorem drainCache_spec (cache : List String) :
    ∀ (ru gu acc : List String) (n : Nat),
      (∀ a ∈ acc, a ∈ gu) → acc.Nodup →
      (∀ x ∈ gu, x ∈ (drainCache cache ru gu acc n).2.2.2) ∧
      (∀ q ∈ (drainCache cache ru gu acc n).1, q ∈ acc ∨ q ∉ gu) ∧
      (drainCache cache ru gu acc n).1.Nodup ∧
      (∀ a ∈ (drainCache cache ru gu acc n).1,
        a ∈ (drainCache cache ru gu acc n).2.2.2) := by
  induction cache with
  | nil =>
    intro ru gu acc n h1 h2
    exact ⟨fun x hx => hx, fun q hq => Or.inl hq, h2, fun a ha => h1 a ha⟩
  | cons q rest ih =>
    intro ru gu acc n h1 h2
    by_cases hlen : acc.length < n
    · by_cases hq : q ∉ ru ∧ q ∉ gu
      · have hrec := ih (addUsed ru q) (addUsed gu q) (acc ++ [q]) n
          (by
            intro a ha
            rcases List.mem_append.mp ha with ha | ha
            · exact (mem_addUsed gu q a).mpr (Or.inr (h1 a ha))
            · simp only [List.mem_singleton] at ha
              exact (mem_addUsed gu q a).mpr (Or.inl ha))
          (by
            rw [List.nodup_append]
            refine ⟨h2, List.nodup_singleton q, ?_⟩
            intro a ha hb
            simp only [List.mem_singleton] at hb
            subst hb
            exact hq.2 (h1 a ha))
        have hstep : drainCache (q :: rest) ru gu acc n =
            drainCache rest (addUsed ru q) (addUsed gu q) (acc ++ [q]) n := by
          rw [drainCache, if_pos hlen, if_pos hq]
        rw [hstep]
        obtain ⟨m1, m2, m3, m4⟩ := hrec
        refine ⟨?_, ?_, m3, m4⟩
        · intro x hx
          exact m1 x ((mem_addUsed gu q x).mpr (Or.inr hx))
        · intro q' hq'
          rcases m2 q' hq' with hm | hm
          · rcases List.mem_append.mp hm with hm | hm
            · exact Or.inl hm
            · simp only [List.mem_singleton] at hm
              subst hm
              exact Or.inr hq.2
          · exact Or.inr (fun hg => hm ((mem_addUsed gu q q').mpr (Or.inr hg)))
      · have hstep : drainCache (q :: rest) ru gu acc n =
            drainCache rest ru gu acc n := by
          rw [drainCache, if_pos hlen, if_neg hq]
        rw [hstep]
        exact ih ru gu acc n h1 h2
    · have hstep : drainCache (q :: rest) ru gu acc n = (acc, q :: rest, ru, gu) := by
        rw [drainCache, if_neg hlen]
      rw [hstep]
      exact ⟨fun x hx => hx, fun q' hq' => Or.inl hq', h2, fun a ha => h1 a ha⟩

theorem validateCandidates_spec (cands : List String) :
    ∀ (ru gu : List String),
      (∀ x ∈ gu, x ∈ (validateCandidates cands ru gu).2.2) ∧
      (∀ q ∈ (validateCandidates cands ru gu).1, q ∉ gu) ∧
      (validateCandidates cands ru gu).1.Nodup ∧
      (∀ q ∈ (validateCandidates cands ru gu).1,
        q ∈ (validateCandidates cands ru gu).2.2) := by
  induction cands with
  | nil =>
    intro ru gu
    exact ⟨fun x hx => hx, by simp [validateCandidates], by simp [validateCandidates],
      by simp [validateCandidates]⟩
  | cons q rest ih =>
    intro ru gu
    by_cases h1 : q ∈ ru ∨ q ∈ gu
    · have hstep : validateCandidates (q :: rest) ru gu =
          validateCandidates rest ru gu := by
        rw [validateCandidates, if_pos h1]
      rw [hstep]
      exact ih ru gu
    · by_cases h2 : gu.any (fun e => simGT7 q e) = true
      · have hstep : validateCandidates (q :: rest) ru gu =
            validateCandidates rest ru gu := by
          rw [validateCandidates, if_neg h1, if_pos h2]
        rw [hstep]
        exact ih ru gu
      · have hstep : validateCandidates (q :: rest) ru gu =
            ((q :: (validateCandidates rest (addUsed ru q) (addUsed gu q)).1,
              (validateCandidates rest (addUsed ru q) (addUsed gu q)).2.1,
              (validateCandidates rest (addUsed ru q) (addUsed gu q)).2.2)) := by
          rw [validateCandidates, if_neg h1, if_neg h2]
        rw [hstep]
        push_neg at h1
        obtain ⟨m1, m2, m3, m4⟩ := ih (addUsed ru q) (addUsed gu q)
        refine ⟨?_, ?_, ?_, ?_⟩
        · intro x hx
          exact m1 x ((mem_addUsed gu q x).mpr (Or.inr hx))
        · intro q' hq'
          rcases List.mem_cons.mp hq' with rfl | hq'
          · exact h1.2
          · exact fun hg => (m2 q' hq') ((mem_addUsed gu q q').mpr (Or.inr hg))
        · rw [List.nodup_cons]
          refine ⟨fun hmem => ?_, m3⟩
          exact (m2 q hmem) ((mem_addUsed gu q q).mpr (Or.inl rfl))
        · intro q' hq'
          rcases List.mem_cons.mp hq' with rfl | hq'
          · exact m1 q' ((mem_addUsed gu q' q').mpr (Or.inl rfl))
          · exact m4 q' hq'

theorem validateCandidates_sim (cands : List String) :
    ∀ (ru gu : List String),
      (∀ q ∈ (validateCandidates cands ru gu).1, ∀ e ∈ gu, simGT7 q e = false) ∧
      (validateCandidates cands ru gu).1.Pairwise
        (fun a b => simGT7 b a = false) := by
  induction cands with
  | nil =>
    intro ru gu
    exact ⟨by simp [validateCandidates], by simp [validateCandidates]⟩
  | cons q rest ih =>
    intro ru gu
    by_cases h1 : q ∈ ru ∨ q ∈ gu
    · have hstep : validateCandidates (q :: rest) ru gu =
          validateCandidates rest ru gu := by
        rw [validateCandidates, if_pos h1]
      rw [hstep]
      exact ih ru gu
    · by_cases h2 : gu.any (fun e => simGT7 q e) = true
      · have hstep : validateCandidates (q :: rest) ru gu =
            validateCandidates rest ru gu := by
          rw [validateCandidates, if_neg h1, if_pos h2]
        rw [hstep]
        exact ih ru gu
      · have hstep : validateCandidates (q :: rest) ru gu =
            ((q :: (validateCandidates rest (addUsed ru q) (addUsed gu q)).1,
              (validateCandidates rest (addUsed ru q) (addUsed gu q)).2.1,
              (validateCandidates rest (addUsed ru q) (addUsed gu q)).2.2)) := by
          rw [validateCandidates, if_neg h1, if_neg h2]
        rw [hstep]
        have hnosim : ∀ e ∈ gu, simGT7 q e = false := by
          intro e he
          cases hb : simGT7 q e with
          | true => exact absurd (List.any_eq_true.mpr ⟨e, he, hb⟩) h2
          | false => rfl
        obtain ⟨s1, s2⟩ := ih (addUsed ru q) (addUsed gu q)
        constructor
        · intro q' hq' e he
          rcases List.mem_cons.mp hq' with rfl | hq'
          · exact hnosim e he
          · exact s1 q' hq' e ((mem_addUsed gu q e).mpr (Or.inr he))
        · rw [List.pairwise_cons]
          refine ⟨?_, s2⟩
          intro b hb
          exact s1 b hb q ((mem_addUsed gu q q).mpr (Or.inl rfl))

theorem not_mem_of_bnot_contains (l : List String) (a : String)
    (h : (!l.contains a) = true) : a ∉ l := by
  intro hm
  simp at h
  exact h hm

theorem mem_filterAvail_not_mem_gu (src ru gu : List String) (q : String)
    (h : q ∈ src.filter (fun q => !ru.contains q && !gu.contains q)) :
    q ∉ gu := by
  have := (List.mem_filter.mp h).2
  rw [Bool.and_eq_true] at this
  exact not_mem_of_bnot_contains gu q this.2

theorem take_shuffle_sub (X : List String)
    (shuffle : List String → List String)
    (hsh : ∀ l, (shuffle l).Perm l) (n : Nat) :
    (∀ q ∈ (shuffle X).take n, q ∈ X) ∧
    (X.Nodup → ((shuffle X).take n).Nodup) := by
  constructor
  · intro q hq
    exact (hsh X).mem_iff.mp ((List.take_sublist n (shuffle X)).subset hq)
  · intro hX
    exact (List.take_sublist n (shuffle X)).nodup ((hsh X).nodup_iff.mpr hX)

theorem selectFromQuestionPoolS_spec (pool fallbacks : List String)
    (shuffle : List String → List String) (ru gu cache : List String)
    (n : Nat) (hnd : (pool ++ fallbacks).Nodup)
    (hsh : ∀ l, (shuffle l).Perm l) :
    (∀ x ∈ gu,
      x ∈ (selectFromQuestionPoolS pool fallbacks shuffle ru gu cache n).globalUsed) ∧
    (∀ q ∈ (selectFromQuestionPoolS pool fallbacks shuffle ru gu cache n).selected,
      q ∉ gu) ∧
    (selectFromQuestionPoolS pool fallbacks shuffle ru gu cache n).selected.Nodup ∧
    (∀ q ∈ (selectFromQuestionPoolS pool fallbacks shuffle ru gu cache n).selected,
      q ∈ (selectFromQuestionPoolS pool fallbacks shuffle ru gu cache n).globalUsed) := by
  by_cases hav : (pool.filter (fun q => !ru.contains q && !gu.contains q)).length < n
  · by_cases hcomb : ((pool.filter (fun q => !ru.contains q && !gu.contains q)) ++
        (fallbacks.filter (fun q => !ru.contains q && !gu.contains q))).length < n
    · have hstep : selectFromQuestionPoolS pool fallbacks shuffle ru gu cache n =
          ⟨[], ru, gu, cache, true⟩ := by
        simp only [selectFromQuestionPoolS]
        rw [if_pos hav, if_pos hcomb]
      rw [hstep]
      exact ⟨fun x hx => hx, by simp, by simp, by simp⟩
    · have hstep : selectFromQuestionPoolS pool fallbacks shuffle ru gu cache n =
          (let combined := (pool.filter (fun q => !ru.contains q && !gu.contains q)) ++
            (fallbacks.filter (fun q => !ru.contains q && !gu.contains q))
          let sel := (shuffle combined).take n
          ⟨sel, addAll ru sel, addAll gu sel, cache, false⟩) := by
        simp only [selectFromQuestionPoolS]
        rw [if_pos hav, if_neg hcomb]
      rw [hstep]
      simp only []
      set combined := (pool.filter (fun q => !ru.contains q && !gu.contains q)) ++
        (fallbacks.filter (fun q => !ru.contains q && !gu.contains q)) with hcomb'
      obtain ⟨hsub, hndtake⟩ := take_shuffle_sub combined shuffle hsh n
      have hmemgu : ∀ q ∈ (shuffle combined).take n, q ∉ gu := by
        intro q hq
        rcases List.mem_append.mp (hsub q hq) with hm | hm
        · exact mem_filterAvail_not_mem_gu pool ru gu q hm
        · exact mem_filterAvail_not_mem_gu fallbacks ru gu q hm
      refine ⟨?_, hmemgu, ?_, ?_⟩
      · intro x hx
        exact (mem_addAll gu _ x).mpr (Or.inl hx)
      · refine hndtake ?_
        exact ((List.filter_sublist pool).append (List.filter_sublist fallbacks)).nodup hnd
      · intro q hq
        exact (mem_addAll gu _ q).mpr (Or.inr hq)
  · have hstep : selectFromQuestionPoolS pool fallbacks shuffle ru gu cache n =
        (let avail := pool.filter (fun q => !ru.contains q && !gu.contains q)
        let sel := (shuffle avail).take n
        ⟨sel, addAll ru sel, addAll gu sel, cache, false⟩) := by
      simp only [selectFromQuestionPoolS]
      rw [if_neg hav]
    rw [hstep]
    simp only []
    set avail := pool.filter (fun q => !ru.contains q && !gu.contains q) with hav'
    obtain ⟨hsub, hndtake⟩ := take_shuffle_sub avail shuffle hsh n
    have hmemgu : ∀ q ∈ (shuffle avail).take n, q ∉ gu := by
      intro q hq
      exact mem_filterAvail_not_mem_gu pool ru gu q (hsub q hq)
    refine ⟨?_, hmemgu, ?_, ?_⟩
    · intro x hx
      exact (mem_addAll gu _ x).mpr (Or.inl hx)
    · refine hndtake ?_
      refine ((List.filter_sublist pool).trans (List.sublist_append_left pool fallbacks)).nodup hnd
    · intro q hq
      exact (mem_addAll gu _ q).mpr (Or.inr hq)

theorem apiAttemptLoop_spec (pool fallbacks : List String)
    (shuffle : List String → List String)
    (hnd : (pool ++ fallbacks).Nodup) (hsh : ∀ l, (shuffle l).Perm l)
    (cached : List String) (needed n : Nat) :
    ∀ (attempts : List (Option (List String))) (ru gu cache : List String),
      (∀ a ∈ cached, a ∈ gu) → cached.Nodup →
      (∀ x ∈ gu,
        x ∈ (apiAttemptLoop pool fallbacks shuffle cached needed n attempts ru gu cache).globalUsed) ∧
      (∀ q ∈ (apiAttemptLoop pool fallbacks shuffle cached needed n attempts ru gu cache).selected,
        q ∈ cached ∨ q ∉ gu) ∧
      (apiAttemptLoop pool fallbacks shuffle cached needed n attempts ru gu cache).selected.Nodup ∧
      (∀ q ∈ (apiAttemptLoop pool fallbacks shuffle cached needed n attempts ru gu cache).selected,
        q ∈ (apiAttemptLoop pool fallbacks shuffle cached needed n attempts ru gu cache).globalUsed) := by
  intro attempts
  induction attempts with
  | nil =>
    intro ru gu cache hc hcnd
    simp only [apiAttemptLoop]
    obtain ⟨p1, p2, p3, p4⟩ :=
      selectFromQuestionPoolS_spec pool fallbacks shuffle ru gu cache n hnd hsh
    exact ⟨p1, fun q hq => Or.inr (p2 q hq), p3, p4⟩
  | cons att rest ih =>
    intro ru gu cache hc hcnd
    cases att with
    | none =>
      simp only [apiAttemptLoop]
      exact ih ru gu cache hc hcnd
    | some cands =>
      obtain ⟨v1, v2, v3, v4⟩ := validateCandidates_spec cands ru gu
      by_cases hfit :
          n ≤ (cached ++ (validateCandidates cands ru gu).1.take needed).length
      · have hstep : apiAttemptLoop pool fallbacks shuffle cached needed n
            (some cands :: rest) ru gu cache =
            ⟨(cached ++ (validateCandidates cands ru gu).1.take needed).take n,
              (validateCandidates cands ru gu).2.1,
              (validateCandidates cands ru gu).2.2,
              cache ++ (validateCandidates cands ru gu).1.drop needed, false⟩ := by
          simp only [apiAttemptLoop]
          rw [if_pos hfit]
        rw [hstep]
        have hsubsel : ∀ q ∈ (cached ++ (validateCandidates cands ru gu).1.take needed).take n,
            q ∈ cached ∨ q ∈ (validateCandidates cands ru gu).1 := by
          intro q hq
          rcases List.mem_append.mp
            ((List.take_sublist n _).subset hq) with hm | hm
          · exact Or.inl hm
          · exact Or.inr ((List.take_sublist needed _).subset hm)
        refine ⟨v1, ?_, ?_, ?_⟩
        · intro q hq
          rcases hsubsel q hq with hm | hm
          · exact Or.inl hm
          · exact Or.inr (v2 q hm)
        · refine (List.take_sublist n _).nodup ?_
          rw [List.nodup_append]
          refine ⟨hcnd, (List.take_sublist needed _).nodup v3, ?_⟩
          intro a ha hb
          exact v2 a ((List.take_sublist needed _).subset hb) (hc a ha)
        · intro q hq
          rcases hsubsel q hq with hm | hm
          · exact v1 q (hc q hm)
          · exact v4 q hm
      · have hstep : apiAttemptLoop pool fallbacks shuffle cached needed n
            (some cands :: rest) ru gu cache =
            apiAttemptLoop pool fallbacks shuffle cached needed n rest
              (validateCandidates cands ru gu).2.1
              (validateCandidates cands ru gu).2.2
              (cache ++ (validateCandidates cands ru gu).1.drop needed) := by
          simp only [apiAttemptLoop]
          rw [if_neg hfit]
        rw [hstep]
        obtain ⟨m1, m2, m3, m4⟩ := ih (validateCandidates cands ru gu).2.1
          (validateCandidates cands ru gu).2.2
          (cache ++ (validateCandidates cands ru gu).1.drop needed)
          (fun a ha => v1 a (hc a ha)) hcnd
        refine ⟨fun x hx => m1 x (v1 x hx), ?_, m3, m4⟩
        intro q hq
        rcases m2 q hq with hm | hm
        · exact Or.inl hm
        · exact Or.inr (fun hg => hm (v1 q hg))

theorem selectQuestionsS_spec (hasKey : Bool) (pool fallbacks : List String)
    (attempts : List (Option (List String)))
    (shuffle : List String → List String) (ru gu cache : List String)
    (n : Nat) (hnd : (pool ++ fallbacks).Nodup)
    (hsh : ∀ l, (shuffle l).Perm l) :
    (∀ x ∈ gu,
      x ∈ (selectQuestionsS hasKey pool fallbacks attempts shuffle ru gu cache n).globalUsed) ∧
    (∀ q ∈ (selectQuestionsS hasKey pool fallbacks attempts shuffle ru gu cache n).selected,
      q ∉ gu) ∧
    (selectQuestionsS hasKey pool fallbacks attempts shuffle ru gu cache n).selected.Nodup ∧
    (∀ q ∈ (selectQuestionsS hasKey pool fallbacks attempts shuffle ru gu cache n).selected,
      q ∈ (selectQuestionsS hasKey pool fallbacks attempts shuffle ru gu cache n).globalUsed) := by
  cases hasKey with
  | false =>
    simp only [selectQuestionsS, Bool.not_false, if_pos]
    exact selectFromQuestionPoolS_spec pool fallbacks shuffle ru gu cache n hnd hsh
  | true =>
    obtain ⟨d1, d2, d3, d4⟩ := drainCache_spec cache ru gu [] n
      (by intro a ha; cases ha) List.nodup_nil
    by_cases hfit : n ≤ (drainCache cache ru gu [] n).1.length
    · have hstep : selectQuestionsS true pool fallbacks attempts shuffle ru gu cache n =
          ⟨(drainCache cache ru gu [] n).1.take n,
            (drainCache cache ru gu [] n).2.2.1,
            (drainCache cache ru gu [] n).2.2.2,
            (drainCache cache ru gu [] n).2.1, false⟩ := by
        simp only [selectQuestionsS, Bool.not_true, Bool.false_eq_true, if_false]
        rw [if_pos hfit]
      rw [hstep]
      refine ⟨d1, ?_, (List.take_sublist n _).nodup d3, ?_⟩
      · intro q hq
        rcases d2 q ((List.take_sublist n _).subset hq) with hm | hm
        · cases hm
        · exact hm
      · intro q hq
        exact d4 q ((List.take_sublist n _).subset hq)
    · have hstep : selectQuestionsS true pool fallbacks attempts shuffle ru gu cache n =
          apiAttemptLoop pool fallbacks shuffle (drainCache cache ru gu [] n).1
            (n - (drainCache cache ru gu [] n).1.length) n attempts
            (drainCache cache ru gu [] n).2.2.1
            (drainCache cache ru gu [] n).2.2.2
            (drainCache cache ru gu [] n).2.1 := by
        simp only [selectQuestionsS, Bool.not_true, Bool.false_eq_true, if_false]
        rw [if_neg hfit]
      rw [hstep]
      obtain ⟨m1, m2, m3, m4⟩ := apiAttemptLoop_spec pool fallbacks shuffle hnd hsh
        (drainCache cache ru gu [] n).1 (n - (drainCache cache ru gu [] n).1.length) n
        attempts (drainCache cache ru gu [] n).2.2.1
        (drainCache cache ru gu [] n).2.2.2
        (drainCache cache ru gu [] n).2.1 d4 d3
      refine ⟨fun x hx => m1 x (d1 x hx), ?_, m3, m4⟩
      intro q hq
      rcases m2 q hq with hm | hm
      · rcases d2 q hm with hm2 | hm2
        · cases hm2
        · exact hm2
      · exact fun hg => hm (d1 q hg)

theorem runCalls_spec (pool fallbacks : List String)
    (hnd : (pool ++ fallbacks).Nodup) :
    ∀ (calls : List Call) (gu cache : List String),
      (∀ c ∈ calls, ∀ l, (c.shuffle l).Perm l) →
      (∀ x ∈ gu, x ∈ (runCalls pool fallbacks calls gu cache).2.1) ∧
      (runCalls pool fallbacks calls gu cache).1.flatten.Nodup ∧
      (∀ q ∈ (runCalls pool fallbacks calls gu cache).1.flatten,
        q ∈ (runCalls pool fallbacks calls gu cache).2.1 ∧ q ∉ gu) := by
  intro calls
  induction calls with
  | nil =>
    intro gu cache hsh
    exact ⟨fun x hx => hx, by simp [runCalls], by simp [runCalls]⟩
  | cons c rest ih =>
    intro gu cache hsh
    have hcsh : ∀ l, (c.shuffle l).Perm l := hsh c (List.mem_cons_self c rest)
    obtain ⟨s1, s2, s3, s4⟩ := selectQuestionsS_spec c.hasKey pool fallbacks
      c.attempts c.shuffle c.roomUsed gu cache c.n hnd hcsh
    obtain ⟨r1, r2, r3⟩ := ih
      (selectQuestionsS c.hasKey pool fallbacks c.attempts c.shuffle c.roomUsed gu cache c.n).globalUsed
      (selectQuestionsS c.hasKey pool fallbacks c.attempts c.shuffle c.roomUsed gu cache c.n).cache
      (fun c' hc' => hsh c' (List.mem_cons_of_mem c hc'))
    have hstep : runCalls pool fallbacks (c :: rest) gu cache =
        ((selectQuestionsS c.hasKey pool fallbacks c.attempts c.shuffle c.roomUsed gu cache c.n).selected ::
          (runCalls pool fallbacks rest
            (selectQuestionsS c.hasKey pool fallbacks c.attempts c.shuffle c.roomUsed gu cache c.n).globalUsed
            (selectQuestionsS c.hasKey pool fallbacks c.attempts c.shuffle c.roomUsed gu cache c.n).cache).1,
          (runCalls pool fallbacks rest
            (selectQuestionsS c.hasKey pool fallbacks c.attempts c.shuffle c.roomUsed gu cache c.n).globalUsed
            (selectQuestionsS c.hasKey pool fallbacks c.attempts c.shuffle c.roomUsed gu cache c.n).cache).2.1,
          (runCalls pool fallbacks rest
            (selectQuestionsS c.hasKey pool fallbacks c.attempts c.shuffle c.roomUsed gu cache c.n).globalUsed
            (selectQuestionsS c.hasKey pool fallbacks c.attempts c.shuffle c.roomUsed gu cache c.n).cache).2.2) := by
      simp only [runCalls]
    rw [hstep]
    refine ⟨?_, ?_, ?_⟩
    · intro x hx
      exact r1 x (s1 x hx)
    · simp only [List.flatten_cons]
      rw [List.nodup_append]
      refine ⟨s3, r2, ?_⟩
      intro a ha hb
      exact (r3 a hb).2 (s4 a ha)
    · intro q hq
      simp only [List.flatten_cons, List.mem_append] at hq
      rcases hq with hq | hq
      · exact ⟨r1 q (s4 q hq), s2 q hq⟩
      · exact ⟨(r3 q hq).1, fun hg => (r3 q hq).2 (s1 q hg)⟩

/-! ## Scoring lemmas -/

theorem awardLoop_snd (gs : List (String × Int)) (a : Option Int) :
    ∀ pts, (awardLoop gs a pts).2 =
      gs.countP (fun e => decide (some e.2 = a)) := by
  induction gs with
  | nil => intro pts; simp [awardLoop]
  | cons e rest ih =>
    intro pts
    obtain ⟨g, v⟩ := e
    by_cases hv : some v = a
    · simp [awardLoop, hv, ih, List.countP_cons]
    · simp [awardLoop, hv, ih, List.countP_cons]

theorem awardLoop_fst (gs : List (String × Int)) (a : Option Int) :
    ∀ pts p, getPts (awardLoop gs a pts).1 p =
      getPts pts p +
        (gs.countP (fun e => decide (e.1 = p ∧ some e.2 = a)) : Int) := by
  induction gs with
  | nil => intro pts p; simp [awardLoop]
  | cons e rest ih =>
    intro pts p
    obtain ⟨g, v⟩ := e
    by_cases hv : some v = a
    · have hrec := ih (objSet pts g (getPts pts g + 1)) p
      have hstep : (awardLoop ((g, v) :: rest) a pts).1 =
          (awardLoop rest a (objSet pts g (getPts pts g + 1))).1 := by
        simp [awardLoop, hv]
      rw [hstep, hrec, getPts_objSet, List.countP_cons]
      by_cases hp : p = g
      · simp only [hp, ite_true, hv, and_true, decide_eq_true_eq]
        push_cast [if_pos rfl]
        ring
      · have : ¬ (g = p ∧ some v = a) := fun hx => hp hx.1.symm
        simp only [hp, ite_false, decide_eq_true_eq, this, if_neg this]
        push_cast
        ring
    · have hstep : (awardLoop ((g, v) :: rest) a pts).1 =
          (awardLoop rest a pts).1 := by
        simp [awardLoop, hv]
      rw [hstep, ih pts p, List.countP_cons]
      have : ¬ (g = p ∧ some v = a) := fun hx => hv hx.2
      simp [this]

theorem countP_key_eq_zero (gs : List (String × Int)) (r : String)
    (P : String × Int → Prop) [DecidablePred P] (hr : r ∉ objKeys gs) :
    gs.countP (fun e => decide (e.1 = r ∧ P e)) = 0 := by
  rw [List.countP_eq_zero]
  intro e he
  simp only [decide_eq_true_eq, not_and]
  intro hkey
  exact absurd (List.mem_map.mpr ⟨e, he, hkey⟩) hr

theorem getPts_scoreGuesses (gs : List (String × Int)) (a : Option Int)
    (r : String) (pts : List (String × Int)) (hr : r ∉ objKeys gs)
    (p : String) :
    getPts (scoreGuesses gs a r pts) p =
      getPts pts p +
        (if p = r then
          ((min (gs.countP (fun e => decide (some e.2 = a))) 3 : Nat) : Int)
         else
          (gs.countP (fun e => decide (e.1 = p ∧ some e.2 = a)) : Int)) := by
  unfold scoreGuesses
  rw [getPts_objSet]
  by_cases hp : p = r
  · rw [if_pos hp, if_pos hp, awardLoop_fst, awardLoop_snd, hp]
    rw [countP_key_eq_zero gs r (fun e => some e.2 = a) hr]
    push_cast
    ring
  · rw [if_neg hp, if_neg hp, awardLoop_fst]

theorem countP_indicator_of_nodup (gs : List (String × Int)) (a : Option Int)
    (p : String) (hnd : (objKeys gs).Nodup) :
    gs.countP (fun e => decide (e.1 = p ∧ some e.2 = a)) =
      if (∃ v, objGet gs p = some v ∧ some v = a) then 1 else 0 := by
  induction gs with
  | nil => simp [objGet]
  | cons e rest ih =>
    obtain ⟨g, v⟩ := e
    simp only [objKeys, List.map_cons, List.nodup_cons] at hnd
    rw [List.countP_cons]
    by_cases hp : p = g
    · subst hp
      rw [countP_key_eq_zero rest p (fun e => some e.2 = a)
        (by simpa [objKeys] using hnd.1)]
      by_cases hv : some v = a
      · have hex : ∃ w, objGet ((p, v) :: rest) p = some w ∧ some w = a :=
          ⟨v, by simp [objGet], hv⟩
        rw [if_pos hex]
        simp [hv]
      · have hex : ¬ ∃ w, objGet ((p, v) :: rest) p = some w ∧ some w = a := by
          rintro ⟨w, hw1, hw2⟩
          simp only [objGet, ite_true] at hw1
          cases hw1
          exact hv hw2
        rw [if_neg hex]
        simp [hv]
    · have : ¬ (g = p ∧ some v = a) := fun hx => hp hx.1.symm
      rw [ih (by simpa [objKeys] using hnd.2)]
      simp [objGet, this, Ne.symm hp]

/-! ## Gameplay helper lemmas -/

theorem length_filter_ne (l : List String) (r : String) :
    r ∈ l → l.Nodup →
    (l.filter (fun p => decide (¬ p = r))).length = l.length - 1 := by
  induction l with
  | nil => intro h; cases h
  | cons a rest ih =>
    intro hmem hnd
    rw [List.nodup_cons] at hnd
    by_cases ha : a = r
    · subst ha
      rw [List.filter_cons, if_neg (by simp)]
      rw [List.filter_eq_self.mpr ?_]
      · simp
      · intro x hx
        simp only [decide_eq_true_eq]
        exact fun hxr => hnd.1 (hxr ▸ hx)
    · have hr : r ∈ rest := by
        rcases List.mem_cons.mp hmem with h | h
        · exact absurd h.symm ha
        · exact h
      rw [List.filter_cons, if_pos (by simpa using ha)]
      simp only [List.length_cons]
      rw [ih hr hnd.2]
      have : 1 ≤ rest.length := List.length_pos.mpr (List.ne_nil_of_mem hr)
      omega

theorem jsIndexOf_bounds (l : List String) (x : String) :
    x ∈ l → 0 ≤ jsIndexOf l x ∧ jsIndexOf l x < (l.length : Int) := by
  induction l with
  | nil => intro h; cases h
  | cons a rest ih =>
    intro hmem
    by_cases ha : a = x
    · rw [jsIndexOf, if_pos ha]
      simp only [List.length_cons]
      constructor
      · omega
      · push_cast
        omega
    · have hr : x ∈ rest := by
        rcases List.mem_cons.mp hmem with h | h
        · exact absurd h.symm ha
        · exact h
      obtain ⟨h1, h2⟩ := ih hr
      rw [jsIndexOf, if_neg ha]
      simp only [List.length_cons]
      rw [if_neg (by omega)]
      push_cast
      omega

/-! ## Claim theorems -/

/-- C10: joinGame has no phase restriction: joining an existing room with
a fresh name succeeds in every phase, appends the player with a points
entry of 0, leaves other points entries alone, and unconditionally
resets the room state to "waiting"; a join is rejected (with no
mutation) exactly for an unknown room or a duplicate name. -/
theorem joinGame_no_phase_restriction (g : Game) (pn : String) :
    (joinGameM none pn = (none, some "Game not found")) ∧
    (pn ∈ g.players →
      joinGameM (some g) pn = (some g, some "Name already taken")) ∧
    (pn ∉ g.players →
      joinGameM (some g) pn =
        (some { g with
            players := g.players ++ [pn]
            points := objSet g.points pn 0
            state := "waiting" }, none) ∧
      objGet (objSet g.points pn 0) pn = some 0 ∧
      (∀ p, p ≠ pn → objGet (objSet g.points pn 0) p = objGet g.points p)) := by
  refine ⟨rfl, ?_, ?_⟩
  · intro h
    simp [joinGameM, h]
  · intro h
    refine ⟨by simp [joinGameM, h], objGet_objSet_self _ _ _, ?_⟩
    intro p hp
    exact objGet_objSet_ne _ _ _ _ hp

theorem joinGame_no_phase_restriction_witness :
    (("Z" : String) ∉ gReveal2.players) ∧
    (joinGameM (some gReveal2) "Z" =
      (some { gReveal2 with
          players := gReveal2.players ++ ["Z"]
          points := objSet gReveal2.points "Z" 0
          state := "waiting" }, none) ∧
      objGet (objSet gReveal2.points "Z" 0) "Z" = some 0 ∧
      (∀ p, p ≠ "Z" →
        objGet (objSet gReveal2.points "Z" 0) p = objGet gReveal2.points p)) :=
  ⟨by decide,
    (joinGame_no_phase_restriction gReveal2 "Z").2.2 (by decide)⟩

/-- C8 counterexample: in a ranking-phase room with players A, B, C, the
list ["A", "A", "B"] is not a permutation of the players (the name A is
duplicated and C is missing), yet submitRanking accepts it: no error is
sent and the rankings map is mutated. -/
theorem submitRanking_duplicate_accepted :
    (submitRankingM gRank3 "A" ["A", "A", "B"] 0).err = none ∧
    objGet (submitRankingM gRank3 "A" ["A", "A", "B"] 0).game.rankings "A" =
      some ["A", "A", "B"] ∧
    (submitRankingM gRank3 "A" ["A", "A", "B"] 0).game ≠ gRank3 := by
  decide

/-- C8 (amended): a submitRanking call during the ranking phase is
rejected -- answered with the error "Invalid ranking" and with the room
left entirely unchanged -- exactly when the list length differs from the
player count or some listed name is not a current player. A list of the
right length drawn from current players is accepted even when it
duplicates a name (the code does not check that the name multiset
matches the player set). -/
theorem submitRanking_reject_spec (g : Game) (caller : String)
    (ranking : List String) (ti : Nat)
    (hcall : caller ∈ g.players) (hstate : g.state = "ranking") :
    ((ranking.length ≠ g.players.length ∨ ¬ (∀ p ∈ ranking, p ∈ g.players)) →
      submitRankingM g caller ranking ti = ⟨g, some "Invalid ranking", false, false⟩) ∧
    ((ranking.length = g.players.length ∧ (∀ p ∈ ranking, p ∈ g.players)) →
      (submitRankingM g caller ranking ti).err = none ∧
      (submitRankingM g caller ranking ti).game.rankings =
        objSet g.rankings caller ranking) := by
  constructor
  · intro hbad
    unfold submitRankingM
    rw [if_neg (not_not_intro hcall), if_neg (not_not_intro hstate),
      if_pos hbad]
  · intro hgood
    unfold submitRankingM
    rw [if_neg (not_not_intro hcall), if_neg (not_not_intro hstate),
      if_neg (by push_neg; exact ⟨hgood.1, hgood.2⟩)]
    by_cases hfire :
        (objKeys (objSet g.rankings caller ranking)).length = g.players.length
    · rw [if_pos hfire]
      unfold setNextRevealM
      by_cases hidx : g.players.length ≤ g.currentRevealIndex
      · rw [if_pos hidx]
        exact ⟨rfl, rfl⟩
      · rw [if_neg hidx]
        exact ⟨rfl, rfl⟩
    · rw [if_neg hfire]
      exact ⟨rfl, rfl⟩

theorem submitRanking_reject_spec_witness :
    (("A" : String) ∈ gRank3.players ∧ gRank3.state = "ranking") ∧
    ((["A", "B"].length ≠ gRank3.players.length ∨
        ¬ (∀ p ∈ ["A", "B"], p ∈ gRank3.players)) →
      submitRankingM gRank3 "A" ["A", "B"] 0 =
        ⟨gRank3, some "Invalid ranking", false, false⟩) ∧
    ((["A", "B"].length = gRank3.players.length ∧
        (∀ p ∈ ["A", "B"], p ∈ gRank3.players)) →
      (submitRankingM gRank3 "A" ["A", "B"] 0).err = none ∧
      (submitRankingM gRank3 "A" ["A", "B"] 0).game.rankings =
        objSet gRank3.rankings "A" ["A", "B"]) :=
  ⟨⟨by decide, by decide⟩,
    submitRanking_reject_spec gRank3 "A" ["A", "B"] 0 (by decide) (by decide)⟩

/-- C5 counterexample: when one of the two players of a reveal-phase
room disconnects, the room state becomes "joining", not "waiting" (and
"joining" is outside the waiting/ranking/guessing/reveal phase set the
claim allows); the remaining player's points entry does persist. -/
theorem disconnect_joining_counterexample :
    ((disconnectM gReveal2 "B").map (fun g => g.state)) = some "joining" ∧
    ((disconnectM gReveal2 "B").map (fun g => g.state)) ≠ some "waiting" ∧
    ((disconnectM gReveal2 "B").map (fun g => objGet g.points "A")) =
      some (some 3) := by
  decide

/-- C5 (amended): a disconnect purges the departing player from players,
points, questionAssignments and rankings and preserves every other
points entry; the room is deleted when no player remains; otherwise the
state becomes "waiting" when more than one player remains and "joining"
when exactly one remains (never any other value). -/
theorem disconnect_spec (g : Game) (name : String)
    (hmem : name ∈ g.players) (hnd : g.players.Nodup) :
    (g.players.erase name = [] → disconnectM g name = none) ∧
    (∀ g', disconnectM g name = some g' →
      g'.state =
        (if 1 < (g.players.erase name).length then "waiting" else "joining") ∧
      (g'.state = "waiting" ∨ g'.state = "joining") ∧
      name ∉ g'.players ∧
      objGet g'.points name = none ∧
      objGet g'.questionAssignments name = none ∧
      objGet g'.rankings name = none ∧
      (∀ p, p ≠ name → objGet g'.points p = objGet g.points p)) := by
  constructor
  · intro h
    unfold disconnectM
    rw [if_neg (not_not_intro hmem), if_pos (by rw [h]; rfl)]
  · intro g' heq
    unfold disconnectM at heq
    rw [if_neg (not_not_intro hmem)] at heq
    by_cases hlen : (g.players.erase name).length = 0
    · rw [if_pos hlen] at heq
      cases heq
    · rw [if_neg hlen] at heq
      have hg' := (Option.some.inj heq).symm
      subst hg'
      refine ⟨rfl, ?_, ?_, ?_, ?_, ?_, ?_⟩
      · by_cases h1 : 1 < (g.players.erase name).length
        · exact Or.inl (by simp [h1])
        · exact Or.inr (by simp [h1])
      · intro hm
        have hm2 : name ∈ g.players.erase name :=
          (List.mergeSort_perm _ _).subset hm
        exact hnd.not_mem_erase hm2
      · exact objGet_objDelete_self _ _
      · exact objGet_objDelete_self _ _
      · exact objGet_objDelete_self _ _
      · intro p hp
        exact objGet_objDelete_ne _ _ _ hp

theorem disconnect_spec_witness :
    (("C" : String) ∈ gRank3.players ∧ gRank3.players.Nodup) ∧
    ((gRank3.players.erase "C" = [] → disconnectM gRank3 "C" = none) ∧
    (∀ g', disconnectM gRank3 "C" = some g' →
      g'.state =
        (if 1 < (gRank3.players.erase "C").length then "waiting" else "joining") ∧
      (g'.state = "waiting" ∨ g'.state = "joining") ∧
      "C" ∉ g'.players ∧
      objGet g'.points "C" = none ∧
      objGet g'.questionAssignments "C" = none ∧
      objGet g'.rankings "C" = none ∧
      (∀ p, p ≠ "C" → objGet g'.points p = objGet gRank3.points p))) :=
  ⟨⟨by decide, by decide⟩,
    disconnect_spec gRank3 "C" (by decide) (by decide)⟩

/-- C7 counterexample: starting from a ranking-phase room with players
A, B, C, three submitRanking calls that all pass validation (each list
has length 3 and draws only current players, but duplicates the name A)
lead setNextReveal to pick target C, whose name does not occur in the
ranker's list: actualPosition becomes 0, outside [1, players.length]. -/
theorem actualPosition_zero_counterexample :
    (submitRankingM gRank3 "A" ["A", "A", "B"] 0).err = none ∧
    (submitRankingM (submitRankingM gRank3 "A" ["A", "A", "B"] 0).game
      "B" ["A", "A", "B"] 0).err = none ∧
    (submitRankingM (submitRankingM (submitRankingM gRank3
        "A" ["A", "A", "B"] 0).game "B" ["A", "A", "B"] 0).game
      "C" ["A", "A", "B"] 2).err = none ∧
    (submitRankingM (submitRankingM (submitRankingM gRank3
        "A" ["A", "A", "B"] 0).game "B" ["A", "A", "B"] 0).game
      "C" ["A", "A", "B"] 2).game.state = "guessing" ∧
    (submitRankingM (submitRankingM (submitRankingM gRank3
        "A" ["A", "A", "B"] 0).game "B" ["A", "A", "B"] 0).game
      "C" ["A", "A", "B"] 2).game.currentTarget = some "C" ∧
    (submitRankingM (submitRankingM (submitRankingM gRank3
        "A" ["A", "A", "B"] 0).game "B" ["A", "A", "B"] 0).game
      "C" ["A", "A", "B"] 2).game.actualPosition = some 0 := by
  decide

/-- C7 (amended): every reveal sets actualPosition to 1 plus the
JavaScript indexOf of currentTarget inside rankings[currentRanker],
where indexOf yields -1 for an absent element (so actualPosition is 0
exactly then); whenever the target does occur in the stored list,
actualPosition lies in [1, length of that list] (which is
[1, players.length] when the stored ranking has full length). -/
theorem setNextReveal_actualPosition (g : Game) (ti : Nat)
    (hidx : g.currentRevealIndex < g.players.length) :
    (setNextRevealM g ti).2 = false ∧
    (setNextRevealM g ti).1.actualPosition =
      some (jsIndexOf
        ((objGet g.rankings (g.rankers.getD g.currentRevealIndex "")).getD [])
        (g.players.getD ti "") + 1) ∧
    ((g.players.getD ti "") ∈
        ((objGet g.rankings (g.rankers.getD g.currentRevealIndex "")).getD []) →
      1 ≤ jsIndexOf
          ((objGet g.rankings (g.rankers.getD g.currentRevealIndex "")).getD [])
          (g.players.getD ti "") + 1 ∧
      jsIndexOf
          ((objGet g.rankings (g.rankers.getD g.currentRevealIndex "")).getD [])
          (g.players.getD ti "") + 1 ≤
        ((((objGet g.rankings (g.rankers.getD g.currentRevealIndex "")).getD []).length : Int))) := by
  have hstep : setNextRevealM g ti =
      ({ g with
          currentRanker := some (g.rankers.getD g.currentRevealIndex "")
          currentTarget := some (g.players.getD ti "")
          currentQuestion :=
            objGet g.questionAssignments (g.rankers.getD g.currentRevealIndex "")
          currentGuesses := []
          actualPosition :=
            some (jsIndexOf
              ((objGet g.rankings (g.rankers.getD g.currentRevealIndex "")).getD [])
              (g.players.getD ti "") + 1)
          currentFullRanking := none
          state := "guessing" }, false) := by
    unfold setNextRevealM
    rw [if_neg (by omega)]
  rw [hstep]
  refine ⟨rfl, rfl, ?_⟩
  intro hmem
  obtain ⟨h1, h2⟩ := jsIndexOf_bounds _ _ hmem
  exact ⟨by omega, by omega⟩

theorem setNextReveal_actualPosition_witness :
    (gGuess6.currentRevealIndex < gGuess6.players.length) ∧
    ((setNextRevealM gGuess6 2).2 = false ∧
    (setNextRevealM gGuess6 2).1.actualPosition =
      some (jsIndexOf
        ((objGet gGuess6.rankings (gGuess6.rankers.getD gGuess6.currentRevealIndex "")).getD [])
        (gGuess6.players.getD 2 "") + 1) ∧
    ((gGuess6.players.getD 2 "") ∈
        ((objGet gGuess6.rankings (gGuess6.rankers.getD gGuess6.currentRevealIndex "")).getD []) →
      1 ≤ jsIndexOf
          ((objGet gGuess6.rankings (gGuess6.rankers.getD gGuess6.currentRevealIndex "")).getD [])
          (gGuess6.players.getD 2 "") + 1 ∧
      jsIndexOf
          ((objGet gGuess6.rankings (gGuess6.rankers.getD gGuess6.currentRevealIndex "")).getD [])
          (gGuess6.players.getD 2 "") + 1 ≤
        ((((objGet gGuess6.rankings (gGuess6.rankers.getD gGuess6.currentRevealIndex "")).getD []).length : Int)))) :=
  ⟨by decide, setNextReveal_actualPosition gGuess6 2 (by decide)⟩

/-- C3: during the guessing phase the advance to reveal fires exactly
when the number of entries in currentGuesses (after recording the new
guess) equals players.length - 1; a guess from the ranker is answered
with an error and mutates nothing; the ranker never acquires an entry in
currentGuesses; and once the room has left the guessing phase every
submitGuess call returns the room unchanged, so the transition fires
exactly once per reveal. -/
theorem guessing_reveal_transition (g : Game) (caller : String)
    (guess : Int) (r : String)
    (hstate : g.state = "guessing") (hr : g.currentRanker = some r)
    (hrmem : r ∈ g.players) (hnd : g.players.Nodup)
    (hcall : caller ∈ g.players) (hner : caller ≠ r)
    (hlo : 1 ≤ guess) (hhi : guess ≤ (g.players.length : Int)) :
    ((submitGuessM g caller guess).1.state = "reveal" ↔
      (objSet g.currentGuesses caller guess).length = g.players.length - 1) ∧
    (∀ q : Int, submitGuessM g r q = (g, some "You cannot guess as the ranker")) ∧
    (r ∉ objKeys g.currentGuesses →
      r ∉ objKeys (submitGuessM g caller guess).1.currentGuesses) ∧
    (∀ (g2 : Game) (c : String) (q : Int), g2.state = "reveal" →
      submitGuessM g2 c q = (g2, none)) := by
  have hcr : ¬ (g.currentRanker = some caller) := by
    rw [hr]
    intro h
    exact hner (Option.some.inj h).symm
  have hrange : ¬ (guess < 1 ∨ guess > (g.players.length : Int)) := by
    push_neg
    exact ⟨by omega, by omega⟩
  have hnr : (g.players.filter (fun p => some p ≠ g.currentRanker)).length =
      g.players.length - 1 := by
    rw [hr]
    have hcongr : g.players.filter (fun p => decide (some p ≠ some r)) =
        g.players.filter (fun p => decide (¬ p = r)) := by
      apply List.filter_congr
      intro x hx
      simp
    rw [hcongr]
    exact length_filter_ne g.players r hrmem hnd
  refine ⟨?_, ?_, ?_, ?_⟩
  · by_cases hfire : (objKeys (objSet g.currentGuesses caller guess)).length =
        (g.players.filter (fun p => some p ≠ g.currentRanker)).length
    · have hstep : (submitGuessM g caller guess).1.state = "reveal" := by
        unfold submitGuessM
        rw [if_neg (not_not_intro hcall), if_neg (not_not_intro hstate),
          if_neg hcr, if_neg hrange, if_pos hfire]
      rw [hstep]
      constructor
      · intro _
        rw [← length_objKeys (objSet g.currentGuesses caller guess), hfire, hnr]
      · intro _
        rfl
    · have hstep : (submitGuessM g caller guess).1.state = g.state := by
        unfold submitGuessM
        rw [if_neg (not_not_intro hcall), if_neg (not_not_intro hstate),
          if_neg hcr, if_neg hrange, if_neg hfire]
      rw [hstep, hstate]
      constructor
      · intro h
        exact absurd h (by decide)
      · intro h
        exfalso
        apply hfire
        rw [length_objKeys, h, hnr]
  · intro q
    unfold submitGuessM
    rw [if_neg (not_not_intro hrmem), if_neg (not_not_intro hstate),
      if_pos hr]
  · intro hrk
    have hkeys : ∀ a, a ∈ objKeys (objSet g.currentGuesses caller guess) ↔
        a = caller ∨ a ∈ objKeys g.currentGuesses :=
      fun a => mem_objKeys_objSet g.currentGuesses caller a guess
    have hrk2 : r ∉ objKeys (objSet g.currentGuesses caller guess) := by
      intro hm
      rcases (hkeys r).mp hm with h | h
      · exact hner h.symm
      · exact hrk h
    by_cases hfire : (objKeys (objSet g.currentGuesses caller guess)).length =
        (g.players.filter (fun p => some p ≠ g.currentRanker)).length
    · have hstep : (submitGuessM g caller guess).1.currentGuesses =
          objSet g.currentGuesses caller guess := by
        unfold submitGuessM
        rw [if_neg (not_not_intro hcall), if_neg (not_not_intro hstate),
          if_neg hcr, if_neg hrange, if_pos hfire]
      rw [hstep]
      exact hrk2
    · have hstep : (submitGuessM g caller guess).1.currentGuesses =
          objSet g.currentGuesses caller guess := by
        unfold submitGuessM
        rw [if_neg (not_not_intro hcall), if_neg (not_not_intro hstate),
          if_neg hcr, if_neg hrange, if_neg hfire]
      rw [hstep]
      exact hrk2
  · intro g2 c q h2
    unfold submitGuessM
    by_cases hcp : c ∉ g2.players
    · rw [if_pos hcp]
    · rw [if_neg hcp, if_pos (by rw [h2]; decide)]

theorem guessing_reveal_transition_witness :
    (gGuess6.state = "guessing" ∧ gGuess6.currentRanker = some "R" ∧
      "R" ∈ gGuess6.players ∧ gGuess6.players.Nodup ∧
      "F" ∈ gGuess6.players ∧ ("F" : String) ≠ "R" ∧
      (1 : Int) ≤ 2 ∧ (2 : Int) ≤ (gGuess6.players.length : Int)) ∧
    (((submitGuessM gGuess6 "F" 2).1.state = "reveal" ↔
      (objSet gGuess6.currentGuesses "F" 2).length = gGuess6.players.length - 1) ∧
    (∀ q : Int, submitGuessM gGuess6 "R" q =
      (gGuess6, some "You cannot guess as the ranker")) ∧
    ("R" ∉ objKeys gGuess6.currentGuesses →
      "R" ∉ objKeys (submitGuessM gGuess6 "F" 2).1.currentGuesses) ∧
    (∀ (g2 : Game) (c : String) (q : Int), g2.state = "reveal" →
      submitGuessM g2 c q = (g2, none))) :=
  ⟨⟨by decide, by decide, by decide, by decide, by decide, by decide,
      by decide, by decide⟩,
    guessing_reveal_transition gGuess6 "F" 2 "R" (by decide) (by decide)
      (by decide) (by decide) (by decide) (by decide) (by decide) (by decide)⟩

/-- C2: when the guessing-to-reveal transition fires, every guesser whose
stored guess equals actualPosition gains exactly 1 point, the ranker
gains exactly min(correctGuessCount, 3) points where correctGuessCount
counts the matching guesses, and every other points entry is unchanged;
moreover the resulting point function depends only on the guess map
itself (any permutation of the stored guess entries scores
identically), not on submission order. -/
theorem reveal_scoring (g : Game) (caller : String) (guess : Int)
    (r : String)
    (hstate : g.state = "guessing") (hr : g.currentRanker = some r)
    (hcall : caller ∈ g.players) (hner : caller ≠ r)
    (hlo : 1 ≤ guess) (hhi : guess ≤ (g.players.length : Int))
    (hknd : (objKeys g.currentGuesses).Nodup)
    (hrk : r ∉ objKeys g.currentGuesses)
    (hfire : (objKeys (objSet g.currentGuesses caller guess)).length =
      (g.players.filter (fun p => some p ≠ g.currentRanker)).length) :
    (submitGuessM g caller guess).1.state = "reveal" ∧
    (∀ p : String,
      getPts (submitGuessM g caller guess).1.points p =
        getPts g.points p +
          (if p = r then
            ((min ((objSet g.currentGuesses caller guess).countP
                (fun e => decide (some e.2 = g.actualPosition))) 3 : Nat) : Int)
           else if (∃ v, objGet (objSet g.currentGuesses caller guess) p = some v ∧
              some v = g.actualPosition) then 1 else 0)) ∧
    (∀ gs2, gs2.Perm (objSet g.currentGuesses caller guess) → ∀ p,
      getPts (scoreGuesses gs2 g.actualPosition r g.points) p =
        getPts (scoreGuesses (objSet g.currentGuesses caller guess)
          g.actualPosition r g.points) p) := by
  have hcr : ¬ (g.currentRanker = some caller) := by
    rw [hr]
    intro h
    exact hner (Option.some.inj h).symm
  have hrange : ¬ (guess < 1 ∨ guess > (g.players.length : Int)) := by
    push_neg
    exact ⟨by omega, by omega⟩
  have hgetd : g.currentRanker.getD "" = r := by rw [hr]; rfl
  have hknd2 : (objKeys (objSet g.currentGuesses caller guess)).Nodup :=
    nodup_objKeys_objSet _ _ _ hknd
  have hrk2 : r ∉ objKeys (objSet g.currentGuesses caller guess) := by
    intro hm
    rcases (mem_objKeys_objSet _ _ _ _).mp hm with h | h
    · exact hner h.symm
    · exact hrk h
  have hstep : submitGuessM g caller guess =
      ({ g with
          currentGuesses := objSet g.currentGuesses caller guess
          points := scoreGuesses (objSet g.currentGuesses caller guess)
            g.actualPosition (g.currentRanker.getD "") g.points
          players := sortByPointsDesc g.players
            (scoreGuesses (objSet g.currentGuesses caller guess)
              g.actualPosition (g.currentRanker.getD "") g.points)
          currentFullRanking := objGet g.rankings (g.currentRanker.getD "")
          state := "reveal" }, none) := by
    unfold submitGuessM
    rw [if_neg (not_not_intro hcall), if_neg (not_not_intro hstate),
      if_neg hcr, if_neg hrange, if_pos hfire]
  rw [hstep]
  refine ⟨rfl, ?_, ?_⟩
  · intro p
    simp only [hgetd]
    rw [getPts_scoreGuesses _ _ _ _ hrk2 p]
    by_cases hp : p = r
    · rw [if_pos hp, if_pos hp]
    · rw [if_neg hp, if_neg hp,
        countP_indicator_of_nodup _ _ _ hknd2]
      by_cases hex : ∃ v, objGet (objSet g.currentGuesses caller guess) p = some v ∧
          some v = g.actualPosition
      · rw [if_pos hex, if_pos hex]
        rfl
      · rw [if_neg hex, if_neg hex]
        rfl
  · intro gs2 hperm p
    have hrk3 : r ∉ objKeys gs2 := by
      intro hm
      exact hrk2 ((hperm.map (fun e => e.1)).mem_iff.mp hm)
    rw [getPts_scoreGuesses gs2 _ _ _ hrk3 p,
        getPts_scoreGuesses _ _ _ _ hrk2 p]
    by_cases hp : p = r
    · rw [if_pos hp, if_pos hp, hperm.countP_eq]
    · rw [if_neg hp, if_neg hp, hperm.countP_eq]

theorem reveal_scoring_witness :
    (gGuess6.state = "guessing" ∧ gGuess6.currentRanker = some "R" ∧
      "F" ∈ gGuess6.players ∧ ("F" : String) ≠ "R" ∧
      (objKeys gGuess6.currentGuesses).Nodup ∧
      "R" ∉ objKeys gGuess6.currentGuesses ∧
      (objKeys (objSet gGuess6.currentGuesses "F" 2)).length =
        (gGuess6.players.filter (fun p => some p ≠ gGuess6.currentRanker)).length) ∧
    ((submitGuessM gGuess6 "F" 2).1.state = "reveal" ∧
    (∀ p : String,
      getPts (submitGuessM gGuess6 "F" 2).1.points p =
        getPts gGuess6.points p +
          (if p = "R" then
            ((min ((objSet gGuess6.currentGuesses "F" 2).countP
                (fun e => decide (some e.2 = gGuess6.actualPosition))) 3 : Nat) : Int)
           else if (∃ v, objGet (objSet gGuess6.currentGuesses "F" 2) p = some v ∧
              some v = gGuess6.actualPosition) then 1 else 0)) ∧
    (∀ gs2, gs2.Perm (objSet gGuess6.currentGuesses "F" 2) → ∀ p,
      getPts (scoreGuesses gs2 gGuess6.actualPosition "R" gGuess6.points) p =
        getPts (scoreGuesses (objSet gGuess6.currentGuesses "F" 2)
          gGuess6.actualPosition "R" gGuess6.points) p)) :=
  ⟨⟨by decide, by decide, by decide, by decide, by decide, by decide, by decide⟩,
    reveal_scoring gGuess6 "F" 2 "R" (by decide) (by decide) (by decide)
      (by decide) (by decide) (by decide) (by decide) (by decide) (by decide)⟩

/-- C4 counterexample: when the supply cannot cover a room of three
players (the room has already used every fallback string and the seed
pool is empty), startGame fails as described -- but the room's stored
noMoreQuestions flag stays false; only the broadcast payload carries
noMoreQuestions = true. -/
theorem noMoreQuestions_flag_not_stored :
    (startGameM false [] fallbackQuestions [] id id id
        gWait3
        "A" [] []).game.noMoreQuestions = false ∧
    (startGameM false [] fallbackQuestions [] id id id
        gWait3
        "A" [] []).broadcasts =
      [{ gWait3 with noMoreQuestions := true }] ∧
    (startGameM false [] fallbackQuestions [] id id id
        gWait3
        "A" [] []).err = some "No more unique questions available." ∧
    (startGameM false [] fallbackQuestions [] id id id
        gWait3
        "A" [] []).game.state = "waiting" := by
  decide

/-- C4 (amended): when the filtered seed pool and fallback list together
fall short of the demand, the acquisition call returns the empty list (a
value, not an exception) and mutates nothing; startGame then leaves the
room exactly as it was -- prior phase kept, stored noMoreQuestions flag
unchanged -- answers the calling connection with an error, and
broadcasts a gameState payload carrying noMoreQuestions = true; the
stored room flag itself is never mutated. -/
theorem supply_exhaustion_spec (pool fallbacks : List String)
    (shuffle shuffleQ shuffleR : List String → List String)
    (g : Game) (gu cache : List String)
    (hshort : ((pool.filter (fun q => !g.usedQuestions.contains q && !gu.contains q)) ++
      (fallbacks.filter (fun q => !g.usedQuestions.contains q && !gu.contains q))).length <
        g.players.length) :
    (selectFromQuestionPoolS pool fallbacks shuffle g.usedQuestions gu cache
        g.players.length =
      ⟨[], g.usedQuestions, gu, cache, true⟩) ∧
    (startGameM false pool fallbacks [] shuffle shuffleQ shuffleR g g.owner
        gu cache =
      ⟨g, gu, cache, false, some "No more unique questions available.",
        [{ g with noMoreQuestions := true }]⟩) := by
  have hav : (pool.filter (fun q => !g.usedQuestions.contains q && !gu.contains q)).length <
      g.players.length := by
    have := List.length_append
      (pool.filter (fun q => !g.usedQuestions.contains q && !gu.contains q))
      (fallbacks.filter (fun q => !g.usedQuestions.contains q && !gu.contains q))
    omega
  have hpool : selectFromQuestionPoolS pool fallbacks shuffle g.usedQuestions gu cache
      g.players.length = ⟨[], g.usedQuestions, gu, cache, true⟩ := by
    simp only [selectFromQuestionPoolS]
    rw [if_pos hav, if_pos hshort]
  refine ⟨hpool, ?_⟩
  have hsel : selectQuestionsS false pool fallbacks [] shuffle g.usedQuestions gu cache
      g.players.length = ⟨[], g.usedQuestions, gu, cache, true⟩ := by
    simp only [selectQuestionsS, Bool.not_false, if_pos]
    exact hpool
  have hn : 0 < g.players.length := by omega
  have hassign : assignQuestionsM false pool fallbacks [] shuffle shuffleQ shuffleR
      g gu cache = ⟨g, gu, cache, false, [{ g with noMoreQuestions := true }]⟩ := by
    unfold assignQuestionsM
    rw [hsel]
    simp only []
    rw [if_pos (by simpa using hn)]
    simp
  unfold startGameM
  rw [if_neg (not_not_intro rfl), hassign]
  rfl

theorem supply_exhaustion_spec_witness :
    (((([] : List String).filter (fun q =>
        !gWait3.usedQuestions.contains q &&
        !([] : List String).contains q)) ++
      (fallbackQuestions.filter (fun q =>
        !gWait3.usedQuestions.contains q &&
        !([] : List String).contains q))).length <
        gWait3.players.length) ∧
    ((selectFromQuestionPoolS [] fallbackQuestions id
        gWait3.usedQuestions
        [] [] gWait3.players.length =
      ⟨[], gWait3.usedQuestions, [], [], true⟩) ∧
    (startGameM false [] fallbackQuestions [] id id id
        gWait3
        gWait3.owner [] [] =
      ⟨gWait3, [], [], false,
        some "No more unique questions available.",
        [{ gWait3 with noMoreQuestions := true }]⟩)) := by
  constructor
  · decide
  · have h := supply_exhaustion_spec [] fallbackQuestions id id id
      gWait3
      [] [] (by decide)
    exact ⟨h.1, h.2⟩

/-- C6 counterexample: "abcde" and "abcdx" score 0.75 > 0.7 against each
other, yet two successive pool acquisitions accept both into the ledger,
because the seed-pool / fallback path performs no similarity check. -/
theorem similarity_filter_pool_counterexample :
    simGT7 "abcde" "abcdx" = true ∧
    (selectQuestionsS false ["abcde", "abcdx"] fallbackQuestions [] id
      [] [] [] 1).selected = ["abcde"] ∧
    (selectQuestionsS false ["abcde", "abcdx"] fallbackQuestions [] id
      []
      (selectQuestionsS false ["abcde", "abcdx"] fallbackQuestions [] id
        [] [] [] 1).globalUsed
      (selectQuestionsS false ["abcde", "abcdx"] fallbackQuestions [] id
        [] [] [] 1).cache 1).selected = ["abcdx"] ∧
    "abcde" ∈ (selectQuestionsS false ["abcde", "abcdx"] fallbackQuestions [] id
      []
      (selectQuestionsS false ["abcde", "abcdx"] fallbackQuestions [] id
        [] [] [] 1).globalUsed
      (selectQuestionsS false ["abcde", "abcdx"] fallbackQuestions [] id
        [] [] [] 1).cache 1).globalUsed ∧
    "abcdx" ∈ (selectQuestionsS false ["abcde", "abcdx"] fallbackQuestions [] id
      []
      (selectQuestionsS false ["abcde", "abcdx"] fallbackQuestions [] id
        [] [] [] 1).globalUsed
      (selectQuestionsS false ["abcde", "abcdx"] fallbackQuestions [] id
        [] [] [] 1).cache 1).globalUsed := by
  decide

/-- C6 (amended): the 0.7 similarity filter guards only the generative
candidate path: a candidate whose similarity against some member of the
ledger at check time exceeds 0.7 is never accepted there, and within one
accepted batch no later candidate is similar to an earlier accepted one;
seed-pool and fallback selections perform no similarity check at all
(see the counterexample). -/
theorem similarity_filter_generative_only (cands ru gu : List String) :
    (∀ q ∈ (validateCandidates cands ru gu).1, ∀ e ∈ gu, simGT7 q e = false) ∧
    (validateCandidates cands ru gu).1.Pairwise
      (fun a b => simGT7 b a = false) :=
  validateCandidates_sim cands ru gu

theorem similarity_filter_generative_only_witness :
    (("zq" : String) ∈ (validateCandidates ["zq"] [] ["abcde"]).1 ∧
      ("abcde" : String) ∈ (["abcde"] : List String)) ∧
    simGT7 "zq" "abcde" = false :=
  ⟨⟨by decide, by decide⟩,
    (similarity_filter_generative_only ["zq"] [] ["abcde"]).1 "zq"
      (by decide) "abcde" (by decide)⟩

/-- C9: the prefetch cache round-trip is impossible in the code as
written. A first call that over-produces pushes the surplus question
"qc" into the cache, but only after adding it to the global ledger; the
drain step of the next call rejects every ledger member, so "qc" is
silently discarded (the cache empties) and the call returns questions
from other sources instead. -/
theorem prefetch_cache_never_served :
    (selectQuestionsS true [] [] [some ["qa", "qb", "qc"]] id [] [] [] 2).selected =
      ["qa", "qb"] ∧
    (selectQuestionsS true [] [] [some ["qa", "qb", "qc"]] id [] [] [] 2).cache =
      ["qc"] ∧
    "qc" ∈ (selectQuestionsS true [] [] [some ["qa", "qb", "qc"]] id [] [] [] 2).globalUsed ∧
    (selectQuestionsS true ["qd"] [] [] id []
      (selectQuestionsS true [] [] [some ["qa", "qb", "qc"]] id [] [] [] 2).globalUsed
      (selectQuestionsS true [] [] [some ["qa", "qb", "qc"]] id [] [] [] 2).cache
      1).selected = ["qd"] ∧
    (selectQuestionsS true ["qd"] [] [] id []
      (selectQuestionsS true [] [] [some ["qa", "qb", "qc"]] id [] [] [] 2).globalUsed
      (selectQuestionsS true [] [] [some ["qa", "qb", "qc"]] id [] [] [] 2).cache
      1).cache = [] ∧
    "qc" ∉ (selectQuestionsS true ["qd"] [] [] id []
      (selectQuestionsS true [] [] [some ["qa", "qb", "qc"]] id [] [] [] 2).globalUsed
      (selectQuestionsS true [] [] [some ["qa", "qb", "qc"]] id [] [] [] 2).cache
      1).selected := by
  decide

/-- C1: global question uniqueness. Over any sequence of acquisition
calls sharing the process-wide ledger and prefetch queue -- any mix of
rooms, pool sizes, API availability and outcomes -- the returned
question lists are collectively duplicate-free; every returned string is
in the ledger when its call returns and was absent from the ledger
before the whole run; and each single call only returns strings absent
from the ledger at its start, all recorded by its end, with no duplicate
inside one call. The hypotheses say the deduplicated seed pool shares no
string with the fallback list and that the random shuffles are
permutations. -/
theorem global_question_uniqueness (pool : List String) (calls : List Call)
    (gu0 cache0 : List String)
    (hnd : (pool ++ fallbackQuestions).Nodup)
    (hsh : ∀ c ∈ calls, ∀ l, (c.shuffle l).Perm l) :
    (runCalls pool fallbackQuestions calls gu0 cache0).1.flatten.Nodup ∧
    (∀ q ∈ (runCalls pool fallbackQuestions calls gu0 cache0).1.flatten,
      q ∈ (runCalls pool fallbackQuestions calls gu0 cache0).2.1 ∧ q ∉ gu0) ∧
    (∀ (hasKey : Bool) (attempts : List (Option (List String)))
        (shuffle : List String → List String) (ru gu cache : List String)
        (n : Nat),
      (∀ l, (shuffle l).Perm l) →
      (∀ q ∈ (selectQuestionsS hasKey pool fallbackQuestions attempts shuffle
          ru gu cache n).selected,
        q ∈ (selectQuestionsS hasKey pool fallbackQuestions attempts shuffle
          ru gu cache n).globalUsed ∧ q ∉ gu) ∧
      (selectQuestionsS hasKey pool fallbackQuestions attempts shuffle
        ru gu cache n).selected.Nodup) := by
  obtain ⟨r1, r2, r3⟩ := runCalls_spec pool fallbackQuestions hnd calls gu0 cache0 hsh
  refine ⟨r2, r3, ?_⟩
  intro hasKey attempts shuffle ru gu cache n hshuffle
  obtain ⟨s1, s2, s3, s4⟩ := selectQuestionsS_spec hasKey pool fallbackQuestions
    attempts shuffle ru gu cache n hnd hshuffle
  exact ⟨fun q hq => ⟨s4 q hq, s2 q hq⟩, s3⟩

theorem global_question_uniqueness_witness :
    ((["aa", "bb"] ++ fallbackQuestions).Nodup) ∧
    (runCalls ["aa", "bb"] fallbackQuestions
      [⟨false, [], id, [], 1⟩, ⟨true, [some ["xx", "yy"]], id, [], 1⟩]
      [] []).1.flatten.Nodup ∧
    (runCalls ["aa", "bb"] fallbackQuestions
      [⟨false, [], id, [], 1⟩, ⟨true, [some ["xx", "yy"]], id, [], 1⟩]
      [] []).1 = [["aa"], ["xx"]] := by
  have h := global_question_uniqueness ["aa", "bb"]
    [⟨false, [], id, [], 1⟩, ⟨true, [some ["xx", "yy"]], id, [], 1⟩] [] []
    (by decide)
    (by
      intro c hc l
      rcases List.mem_cons.mp hc with rfl | hc
      · exact List.Perm.refl l
      rcases List.mem_cons.mp hc with rfl | hc
      · exact List.Perm.refl l
      · cases hc)
  exact ⟨by decide, h.1, by decide⟩
